import Mathlib

/-!
Shallow embedding of the `JSONLParse` transform stream from
`src/parser/parser.ts` of the `jsonl-parse` repository, together with
theorems checking the specification's claims about it.

Modelling conventions:
* Text (chunks, buffered tail, lines) is modelled as `List Char`; the byte
  decoding performed by `chunk.toString(encoding)` is treated as already done.
* JS numbers are modelled as `Int`; dates as their millisecond timestamp.
* The trusted host primitives (`JSON.parse`, `Number`, `Date.parse`,
  `String`) are collaborators, not code of this repository; the engine is
  parametrised over a `Host` record supplying them, and concrete witnesses
  instantiate it.
* User hooks (`on_record`, cast functions, columns generator) are plain Lean
  functions in the configuration; `on_skip` has return type void so only its
  presence matters, and its invocations are recorded in the output event log.
-/

set_option maxHeartbeats 1000000

namespace JSONL

/-- Semantic values produced by the JSON decode primitive and by the pipeline
stages.  `undefined` is distinct from `null` exactly as in JS. -/
inductive JSVal where
  | null
  | undefined
  | bool (b : Bool)
  | num (n : Int)
  | str (s : String)
  | arr (elems : List JSVal)
  | obj (fields : List (String × JSVal))
  | date (ms : Int)

/-- JS truthiness of a value (NaN is not representable in the `Int` model). -/
def JSVal.truthy : JSVal → Bool
  | .null => false
  | .undefined => false
  | .bool b => b
  | .num n => n != 0
  | .str s => !s.isEmpty
  | .arr _ => true
  | .obj _ => true
  | .date _ => true

/-- The `=== null` test used at the `processRecord` call sites. -/
def JSVal.isNull : JSVal → Bool
  | .null => true
  | _ => false

/-- The mutable `RecordContext` of the class: counters `lines`, `records`,
`invalid_field_length`. -/
structure Ctx where
  lines : Nat
  records : Nat
  invalid_field_length : Nat
  deriving DecidableEq

/-- Host (platform) primitives the engine invokes: `JSON.parse` (with any
reviver folded in), `Number`, `Date.parse` (on the already-coerced argument;
`none` models NaN), and `String` coercion. -/
structure Host where
  decode : List Char → Option JSVal
  numberOf : JSVal → Option Int
  dateParse : JSVal → Option Int
  toStr : JSVal → String

/-- The normalized `columns` option.  `off` covers the JS values `null`,
`undefined` and `false`, which all behave identically in the code's
`=== true` / `Array.isArray` / `typeof function` tests.  Non-string entries
of an explicit array are `none`. -/
inductive ColumnsOpt where
  | off
  | ctrue
  | names (l : List (Option String))
  | gen (f : JSVal → List String)

/-- The normalized `cast` option (`off` covers `null` and `false`). -/
inductive CastOpt where
  | off
  | ctrue
  | func (f : JSVal → Ctx → JSVal)

/-- The normalized `cast_date` option (`off` covers `null` and `false`). -/
inductive CastDateOpt where
  | off
  | ctrue
  | func (f : JSVal → Ctx → JSVal)

/-- The normalized option fields of the `JSONLParse` instance, as set up by
the constructor.  `maxLineLength = none` models `Infinity`; the numeric
window options keep their raw value (`options.from ?? null` keeps `0`). -/
structure Config where
  strict : Bool
  skipEmptyLines : Bool
  maxLineLength : Option Int
  columns : ColumnsOpt
  from_ : Option Int
  to_ : Option Int
  from_line : Option Int
  to_line : Option Int
  cast : CastOpt
  cast_date : CastDateOpt
  ltrim : Bool
  rtrim : Bool
  trim : Bool
  on_record : Option (JSVal → Ctx → JSVal)
  on_skip : Bool
  info : Bool
  raw : Bool
  objname : Option String
  skip_records_with_empty_values : Bool
  skip_records_with_error : Bool

/-- The user-supplied options object (fields absent = `none`), mirroring
`JSONLParseOptions`. -/
structure Options where
  strict : Option Bool := none
  skipEmptyLines : Option Bool := none
  maxLineLength : Option Int := none
  columns : Option ColumnsOpt := none
  from_ : Option Int := none
  to_ : Option Int := none
  from_line : Option Int := none
  to_line : Option Int := none
  cast : Option CastOpt := none
  cast_date : Option CastDateOpt := none
  ltrim : Option Bool := none
  rtrim : Option Bool := none
  trim : Option Bool := none
  on_record : Option (JSVal → Ctx → JSVal) := none
  on_skip : Bool := false
  info : Option Bool := none
  raw : Option Bool := none
  objname : Option String := none
  skip_records_with_empty_values : Option Bool := none
  skip_records_with_error : Option Bool := none

/-- The constructor's option normalization (`parser.ts` lines 65-95):
`strict !== false`, `skipEmptyLines !== false`, `maxLineLength || Infinity`
(so the falsy value `0` becomes unbounded), and `?? null` / `?? false`
defaults for the rest. -/
def mkConfig (o : Options) : Config where
  strict := o.strict != some false
  skipEmptyLines := o.skipEmptyLines != some false
  maxLineLength := match o.maxLineLength with
    | some m => if m = 0 then none else some m
    | none => none
  columns := o.columns.getD .off
  from_ := o.from_
  to_ := o.to_
  from_line := o.from_line
  to_line := o.to_line
  cast := o.cast.getD .off
  cast_date := o.cast_date.getD .off
  ltrim := o.ltrim.getD false
  rtrim := o.rtrim.getD false
  trim := o.trim.getD false
  on_record := o.on_record
  on_skip := o.on_skip
  info := o.info.getD false
  raw := o.raw.getD false
  objname := o.objname
  skip_records_with_empty_values := o.skip_records_with_empty_values.getD false
  skip_records_with_error := o.skip_records_with_error.getD false

/-- The configuration produced by `new JSONLParse()` with no options. -/
def defaultConfig : Config := mkConfig {}

/-- Whitespace test for the JS `\s` class / `String.prototype.trim`
(restricted to the characters relevant to this embedding). -/
def isWS (c : Char) : Bool := c = ' ' || c = '\t' || c = '\r' || c = '\n'

/-- JS `String.prototype.trim` on a char list. -/
def jsTrim (l : List Char) : List Char :=
  ((l.dropWhile isWS).reverse.dropWhile isWS).reverse

/-- JS `value.replace(re-caret-ws, empty)`: drop leading whitespace. -/
def jsLTrim (l : List Char) : List Char := l.dropWhile isWS

/-- JS `value.replace(re-ws-dollar, empty)`: drop trailing whitespace. -/
def jsRTrim (l : List Char) : List Char := (l.reverse.dropWhile isWS).reverse

/-- `trimValue` (`parser.ts` lines 97-107). -/
def trimValue (cfg : Config) (value : List Char) : List Char :=
  if cfg.trim then jsTrim value
  else if cfg.ltrim && cfg.rtrim then jsTrim value
  else if cfg.ltrim then jsLTrim value
  else if cfg.rtrim then jsRTrim value
  else value

/-- Remove a single trailing carriage return, as the terminator pattern
backslash-r-optional-backslash-n does when splitting. -/
def stripCR : List Char → List Char
  | [] => []
  | ['\r'] => []
  | c :: rest => c :: stripCR rest

/-- Core of `buffer.split` on the terminator pattern: scan the characters,
closing a line at every newline (consuming one directly preceding carriage
return), and return the complete lines plus the unterminated tail.  `cur` is
the partial line accumulated so far. -/
def splitLinesAux (cur : List Char) : List Char → List (List Char) × List Char
  | [] => ([], cur)
  | c :: rest =>
    if c = '\n' then
      let r := splitLinesAux [] rest
      (stripCR cur :: r.1, r.2)
    else
      splitLinesAux (cur ++ [c]) rest

/-- `this.buffer.split(terminator)` followed by `lines.pop()`:
the complete lines and the new pending tail. -/
def splitLines (l : List Char) : List (List Char) × List Char :=
  splitLinesAux [] l

/-- Truthiness-guarded lower window test: `opt && counter < opt`. -/
def winBefore (o : Option Int) (c : Nat) : Bool :=
  match o with
  | some n => n != 0 && decide ((c : Int) < n)
  | none => false

/-- Truthiness-guarded upper window test: `opt && counter > opt`. -/
def winAfter (o : Option Int) (c : Nat) : Bool :=
  match o with
  | some n => n != 0 && decide ((c : Int) > n)
  | none => false

/-- `line.length > this.maxLineLength` (false when unbounded). -/
def lenGtMax (cfg : Config) (l : List Char) : Bool :=
  match cfg.maxLineLength with
  | some m => decide ((l.length : Int) > m)
  | none => false

/-- `this.buffer.length > this.maxLineLength * 10` (false when unbounded). -/
def overflowGt (cfg : Config) (buf : List Char) : Bool :=
  match cfg.maxLineLength with
  | some m => decide ((buf.length : Int) > m * 10)
  | none => false

/-- JS property assignment `obj[k] = v` on an insertion-ordered object:
overwrite in place if the key exists, else append. -/
def objSet (fs : List (String × JSVal)) (k : String) (v : JSVal) :
    List (String × JSVal) :=
  match fs with
  | [] => [(k, v)]
  | (k', v') :: rest =>
    if k' = k then (k', v) :: rest else (k', v') :: objSet rest k v

/-- `record[idx] !== undefined ? record[idx] : null` for an array element. -/
def atOrNull (xs : List JSVal) (i : Nat) : JSVal :=
  match xs.get? i with
  | some .undefined => .null
  | some v => v
  | none => .null

/-- Zip of an explicit `columns` array against a record array
(`parser.ts` lines 154-162): non-string column entries are skipped. -/
def zipExplicit (cols : List (Option String)) (xs : List JSVal) : JSVal :=
  .obj ((cols.enum.foldl (fun acc ic =>
    match ic.2 with
    | some s => objSet acc s (atOrNull xs ic.1)
    | none => acc) []))

/-- Zip of learned header names against a record array
(`parser.ts` lines 170-176 and 178-184). -/
def zipHeader (names : List String) (xs : List JSVal) : JSVal :=
  .obj ((names.enum.foldl (fun acc ic => objSet acc ic.2 (atOrNull xs ic.1)) []))

/-- `this.columns === true`. -/
def columnsIsTrue : ColumnsOpt → Bool
  | .ctrue => true
  | _ => false

/-- Truthiness of `this.cast` (`null` and `false` are falsy). -/
def castTruthy : CastOpt → Bool
  | .off => false
  | _ => true

/-- Truthiness of `this.cast_date`. -/
def castDateTruthy : CastDateOpt → Bool
  | .off => false
  | _ => true

/-- The `cast_date` block of `castValue` (`parser.ts` lines 129-134),
reached only when the `cast` branch above it falls through. -/
def castDatePart (cfg : Config) (host : Host) (value : JSVal) (ctx : Ctx) :
    JSVal :=
  match cfg.cast_date with
  | .ctrue =>
    if value.truthy then
      match host.dateParse value with
      | some ms => .date ms
      | none => value
    else value
  | .func f => f value ctx
  | .off => value

/-- `castValue` (`parser.ts` lines 109-137).  Note the source's early
returns: when `cast === true` recognizes a literal or a numeric value, and
when `cast` is a function, the method returns at once and the `cast_date`
block is never reached. -/
def castValue (cfg : Config) (host : Host) (value : JSVal) (ctx : Ctx) :
    JSVal :=
  match cfg.cast with
  | .ctrue =>
    match value with
    | .str s =>
      if s = "" then .str s
      else if s = "true" then .bool true
      else if s = "false" then .bool false
      else if s = "null" then .null
      else if s = "undefined" then .undefined
      else
        match host.numberOf (.str s) with
        | some n => .num n
        | none => castDatePart cfg host (.str s) ctx
    | v =>
      match host.numberOf v with
      | some n => .num n
      | none => castDatePart cfg host v ctx
  | .func f => f value ctx
  | .off => castDatePart cfg host value ctx

/-- Result of the column-mapping block of `processRecord`: either the record
is consumed as a header (`discard`) or it continues down the pipeline. -/
inductive ColRes where
  | discard (hdr : Option (List String)) (hp : Bool)
  | keep (record : JSVal) (hdr : Option (List String)) (hp : Bool)

/-- The header/column block of `processRecord` (`parser.ts` lines 142-184),
as a function of `this.columns` and the header state.  The source's
`typeof record` of object covers dates too: a date has no enumerable own
properties, so its `Object.keys` is the empty (truthy) array; any other
non-array non-object first value leaves `headerColumns` unchanged. -/
def columnStage (cols : ColumnsOpt) (host : Host) (hdr0 : Option (List String))
    (hp0 : Bool) (parsed : JSVal) : ColRes :=
  if columnsIsTrue cols && !hp0 then
    .discard
      (match parsed with
       | .arr xs => some (xs.map host.toStr)
       | .obj fs => some (fs.map Prod.fst)
       | .date _ => some []
       | _ => hdr0)
      true
  else
    match cols with
    | .names cl =>
      match parsed with
      | .arr xs => .keep (zipExplicit cl xs) hdr0 hp0
      | _ => .keep parsed hdr0 hp0
    | .gen f =>
      if !hp0 then .discard (some (f parsed)) true
      else
        match parsed with
        | .arr xs =>
          (match hdr0 with
           | some names => .keep (zipHeader names xs) hdr0 hp0
           | none => .keep parsed hdr0 hp0)
        | _ => .keep parsed hdr0 hp0
    | _ =>
      match hdr0 with
      | some names =>
        (match parsed with
         | .arr xs => .keep (zipHeader names xs) hdr0 hp0
         | _ => .keep parsed hdr0 hp0)
      | none => .keep parsed hdr0 hp0

/-- The casting block of `processRecord` (`parser.ts` lines 186-198).
A `typeof record` of object covers objects, arrays and dates; a date has no
enumerable own properties, so the for-in loop leaves it unchanged. -/
def castStage (cfg : Config) (host : Host) (ctx : Ctx) (record : JSVal) :
    JSVal :=
  if castTruthy cfg.cast || castDateTruthy cfg.cast_date then
    match record with
    | .arr xs => .arr (xs.map (fun v => castValue cfg host v ctx))
    | .obj fs => .obj (fs.map (fun kv => (kv.1, castValue cfg host kv.2 ctx)))
    | .date ms => .date ms
    | r => castValue cfg host r ctx
  else record

/-- `val === null || val === undefined || val === empty-string`. -/
def isEmptyVal : JSVal → Bool
  | .null => true
  | .undefined => true
  | .str "" => true
  | _ => false

/-- The `skip_records_with_empty_values` test (`parser.ts` lines 200-214):
true means the record is discarded.  `Object.values` of a date is empty, so
`every` is vacuously true there. -/
def emptyTest : JSVal → Bool
  | .arr xs => xs.all isEmptyVal
  | .obj fs => fs.all (fun kv => isEmptyVal kv.2)
  | .date _ => true
  | r => isEmptyVal r

/-- JS property read `v[k]` for the values this pipeline can hold: object
field lookup, array `length` and canonical index properties; everything else
is `undefined`. -/
def jsGet (v : JSVal) (k : String) : JSVal :=
  match v with
  | .obj fs =>
    match fs.find? (fun kv => kv.1 = k) with
    | some kv => kv.2
    | none => .undefined
  | .arr xs =>
    if k = "length" then .num (xs.length : Int)
    else
      match k.toNat? with
      | some i => if toString i = k then
          (match xs.get? i with
           | some v' => v'
           | none => .undefined)
        else .undefined
      | none => .undefined
  | _ => .undefined

/-- `typeof record === object && record !== null`: objects, arrays, dates. -/
def isObjLike : JSVal → Bool
  | .obj _ => true
  | .arr _ => true
  | .date _ => true
  | _ => false

/-- The counters snapshot spread into `info` and passed to hooks, as a JS
object in the insertion order of `RecordContext`. -/
def ctxVal (c : Ctx) : JSVal :=
  .obj [("lines", .num (c.lines : Int)),
        ("records", .num (c.records : Int)),
        ("invalid_field_length", .num (c.invalid_field_length : Int))]

/-- The enrichment and keyed-nesting tail of `processRecord`
(`parser.ts` lines 223-241).  The guard at line 234 tests the truthiness of
`this.objname` itself, so an empty-string objname skips the branch.  Note
the source line 237: the objname mapping stores the bare `record`, not the
enriched `output`. -/
def shapeOutput (cfg : Config) (host : Host) (ctx : Ctx) (record : JSVal)
    (originalLine : List Char) : JSVal :=
  let output :=
    if cfg.info || cfg.raw then
      .obj ((if cfg.info then [("info", ctxVal ctx)] else []) ++
            (if cfg.raw then [("raw", .str (String.mk originalLine))] else []) ++
            [("record", record)])
    else record
  match cfg.objname with
  | some nm =>
    if !nm.isEmpty && isObjLike record && (jsGet record nm).truthy then
      .obj [(host.toStr (jsGet record nm), record)]
    else output
  | none => output

/-- `processRecord` (`parser.ts` lines 139-242).  Returns the output value
(`JSVal.null` is the discard sentinel, exactly as in the source) together
with the updated `headerColumns` and `headerProcessed` fields. -/
def processRecord (cfg : Config) (host : Host) (hdr0 : Option (List String))
    (hp0 : Bool) (ctx : Ctx) (parsed : JSVal) (originalLine : List Char) :
    JSVal × Option (List String) × Bool :=
  match columnStage cfg.columns host hdr0 hp0 parsed with
  | .discard hdr hp => (.null, hdr, hp)
  | .keep record0 hdr hp =>
    let record1 := castStage cfg host ctx record0
    if cfg.skip_records_with_empty_values && emptyTest record1 then
      (.null, hdr, hp)
    else
      match cfg.on_record with
      | some f =>
        match f record1 ctx with
        | .null => (.null, hdr, hp)
        | .undefined => (.null, hdr, hp)
        | record2 => (shapeOutput cfg host ctx record2 originalLine, hdr, hp)
      | none => (shapeOutput cfg host ctx record1 originalLine, hdr, hp)

/-- The errors the engine can raise, carrying the data its messages carry. -/
inductive Err where
  | overflow
  | tooLong (len : Nat)
  | badJSON (lineNo : Nat) (frag : List Char)
  | finalTooLong (len : Nat)
  | finalBadJSON (frag : List Char)
  deriving DecidableEq

/-- Observable per-line outputs: a pushed record, or an `on_skip` hook
invocation with the error and the offending line. -/
inductive Out where
  | push (v : JSVal)
  | skipCall (e : Err) (line : List Char)

/-- The per-line mutable state of the instance, apart from the buffer
(which the line loop never touches). -/
structure LState where
  ctx : Ctx
  headerColumns : Option (List String)
  headerProcessed : Bool

/-- Result of processing a single complete line inside `_transform`'s loop. -/
inductive LineRes where
  | cont (s : LState) (outs : List Out)
  | brk (s : LState) (outs : List Out)
  | fatal (s : LState) (outs : List Out) (e : Err)

/-- One iteration of the `_transform` line loop (`parser.ts` lines 254-316):
line counting, line-window gates, length check with the error-policy ladder,
whitespace handling, decode with the ladder, `processRecord`, record
counting, record-window gates, push. -/
def processLine (cfg : Config) (host : Host) (s : LState) (line0 : List Char) :
    LineRes :=
  let ctx1 : Ctx := { s.ctx with lines := s.ctx.lines + 1 }
  let s1 : LState := { s with ctx := ctx1 }
  if winBefore cfg.from_line ctx1.lines then .cont s1 []
  else if winAfter cfg.to_line ctx1.lines then .brk s1 []
  else if lenGtMax cfg line0 then
    let ctx2 : Ctx :=
      { ctx1 with invalid_field_length := ctx1.invalid_field_length + 1 }
    let s2 : LState := { s1 with ctx := ctx2 }
    if cfg.on_skip then .cont s2 [.skipCall (.tooLong line0.length) line0]
    else if cfg.skip_records_with_error then .cont s2 []
    else if cfg.strict then .fatal s2 [] (.tooLong line0.length)
    else .cont s2 []
  else
    let line1 := if cfg.skipEmptyLines then jsTrim line0 else trimValue cfg line0
    if cfg.skipEmptyLines && line1.isEmpty then .cont s1 []
    else
      match host.decode line1 with
      | none =>
        if cfg.on_skip then
          .cont s1 [.skipCall (.badJSON ctx1.lines (line1.take 50)) line1]
        else if cfg.skip_records_with_error then .cont s1 []
        else if cfg.strict then
          .fatal s1 [] (.badJSON ctx1.lines (line1.take 50))
        else .cont s1 []
      | some parsed =>
        match processRecord cfg host s1.headerColumns s1.headerProcessed ctx1
          parsed line1 with
        | (processed, hdr, hp) =>
          let s2 : LState :=
            { s1 with headerColumns := hdr, headerProcessed := hp }
          if processed.isNull then .cont s2 []
          else
            let ctx3 : Ctx := { ctx1 with records := ctx1.records + 1 }
            let s3 : LState := { s2 with ctx := ctx3 }
            if winBefore cfg.from_ ctx3.records then .cont s3 []
            else if winAfter cfg.to_ ctx3.records then .brk s3 []
            else .cont s3 [.push processed]

/-- How a chunk's line loop ended: ran all lines, hit a window `break`, or
hit a fatal error passed to the callback. -/
inductive ChunkExit where
  | done
  | broke
  | fatal (e : Err)
  deriving DecidableEq

/-- The `for` loop of `_transform`: process the chunk's complete lines in
order, stopping at a `break` or a fatal error. -/
def runLinesChunk (cfg : Config) (host : Host) :
    LState → List (List Char) → LState × List Out × ChunkExit
  | s, [] => (s, [], .done)
  | s, l :: ls =>
    match processLine cfg host s l with
    | .cont s' outs =>
      match runLinesChunk cfg host s' ls with
      | (s'', outs2, x) => (s'', outs ++ outs2, x)
    | .brk s' outs => (s', outs, .broke)
    | .fatal s' outs e => (s', outs, .fatal e)

/-- The full engine state: the pending tail plus the per-line state. -/
structure PState where
  buffer : List Char
  st : LState

/-- The state of a freshly constructed instance. -/
def initState : PState :=
  { buffer := [], st := { ctx := ⟨0, 0, 0⟩, headerColumns := none,
                          headerProcessed := false } }

/-- `_transform` (`parser.ts` lines 244-318): append the chunk to the
buffer, apply the buffer-overflow guard, split off the complete lines, keep
the unterminated tail, run the line loop. -/
def transform (cfg : Config) (host : Host) (s : PState) (chunk : List Char) :
    PState × List Out × Option Err :=
  let buf := s.buffer ++ chunk
  if overflowGt cfg buf then
    ({ s with buffer := buf }, [], some .overflow)
  else
    match splitLines buf with
    | (ls, tail) =>
      match runLinesChunk cfg host s.st ls with
      | (st', outs, .fatal e) => ({ buffer := tail, st := st' }, outs, some e)
      | (st', outs, _) => ({ buffer := tail, st := st' }, outs, none)

/-- The flush push guard `!this.from || records >= from`. -/
def okFromB (o : Option Int) (c : Nat) : Bool :=
  match o with
  | some n => n == 0 || decide ((c : Int) ≥ n)
  | none => true

/-- The flush push guard `!this.to || records <= to`. -/
def okToB (o : Option Int) (c : Nat) : Bool :=
  match o with
  | some n => n == 0 || decide ((c : Int) ≤ n)
  | none => true

/-- `_flush` (`parser.ts` lines 320-386): treat the remaining buffer, if
non-empty, as one final unterminated line. -/
def flush (cfg : Config) (host : Host) (s : PState) :
    PState × List Out × Option Err :=
  let line0 := s.buffer
  if line0.isEmpty then (s, [], none)
  else
    let ctx1 : Ctx := { s.st.ctx with lines := s.st.ctx.lines + 1 }
    let s1 : PState := { s with st := { s.st with ctx := ctx1 } }
    if winBefore cfg.from_line ctx1.lines then (s1, [], none)
    else if winAfter cfg.to_line ctx1.lines then (s1, [], none)
    else if lenGtMax cfg line0 then
      let ctx2 : Ctx :=
        { ctx1 with invalid_field_length := ctx1.invalid_field_length + 1 }
      let s2 : PState := { s1 with st := { s1.st with ctx := ctx2 } }
      if cfg.on_skip then (s2, [.skipCall (.finalTooLong line0.length) line0], none)
      else if cfg.skip_records_with_error then (s2, [], none)
      else if cfg.strict then (s2, [], some (.finalTooLong line0.length))
      else (s2, [], none)
    else
      let line1 :=
        if cfg.skipEmptyLines then jsTrim line0 else trimValue cfg line0
      if cfg.skipEmptyLines && line1.isEmpty then (s1, [], none)
      else
        match host.decode line1 with
        | none =>
          if cfg.on_skip then
            (s1, [.skipCall (.finalBadJSON (line1.take 50)) line1], none)
          else if cfg.skip_records_with_error then (s1, [], none)
          else if cfg.strict then (s1, [], some (.finalBadJSON (line1.take 50)))
          else (s1, [], none)
        | some parsed =>
          match processRecord cfg host s1.st.headerColumns
            s1.st.headerProcessed ctx1 parsed line1 with
          | (processed, hdr, hp) =>
            let st2 : LState :=
              { s1.st with headerColumns := hdr, headerProcessed := hp }
            let s2 : PState := { s1 with st := st2 }
            if processed.isNull then (s2, [], none)
            else
              let ctx3 : Ctx := { ctx1 with records := ctx1.records + 1 }
              let s3 : PState := { s2 with st := { s2.st with ctx := ctx3 } }
              if okFromB cfg.from_ ctx3.records && okToB cfg.to_ ctx3.records
              then (s3, [.push processed], none)
              else (s3, [], none)

/-- Feed a list of chunks to `_transform` in order, stopping at the first
fatal error (the stream is destroyed by `callback(error)`). -/
def feedAll (cfg : Config) (host : Host) :
    PState → List (List Char) → PState × List Out × Option Err
  | s, [] => (s, [], none)
  | s, c :: cs =>
    match transform cfg host s c with
    | (s', outs, some e) => (s', outs, some e)
    | (s', outs, none) =>
      match feedAll cfg host s' cs with
      | (s'', outs2, e) => (s'', outs ++ outs2, e)

/-- A complete run from a given state: feed every chunk, then flush unless a
fatal error already destroyed the stream. -/
def runFrom (cfg : Config) (host : Host) (s0 : PState)
    (chunks : List (List Char)) : PState × List Out × Option Err :=
  match feedAll cfg host s0 chunks with
  | (s, outs, some e) => (s, outs, some e)
  | (s, outs, none) =>
    match flush cfg host s with
    | (s', outs2, e) => (s', outs ++ outs2, e)

/-- A complete run of a freshly constructed instance. -/
def run (cfg : Config) (host : Host) (chunks : List (List Char)) :
    PState × List Out × Option Err :=
  runFrom cfg host initState chunks

/-- The emitted record sequence of an output event log. -/
def pushes (outs : List Out) : List JSVal :=
  outs.filterMap (fun o => match o with | .push v => some v | _ => none)

/-- The records emitted by a run. -/
def recsOf (r : PState × List Out × Option Err) : List JSVal := pushes r.2.1

/-- The error with which a run ended, if any. -/
def errOf (r : PState × List Out × Option Err) : Option Err := r.2.2

/-- Number of line terminators in an input: every terminator, newline alone
or carriage return plus newline, contains exactly one newline. -/
def nlCount (l : List Char) : Nat := l.count '\n'

/-- Char-list form of a string literal. -/
def strL (s : String) : List Char := s.toList

/-- A concrete JSON decoder covering the inputs used by the witnesses:
a finite fragment of the behaviour of the host `JSON.parse`. -/
def decodeW (l : List Char) : Option JSVal :=
  if l = strL "1" then some (.num 1)
  else if l = strL "2" then some (.num 2)
  else if l = strL "null" then some .null
  else if l = strL "\x7b\"a\":1\x7d" then some (.obj [("a", .num 1)])
  else if l = strL "\x7b\"b\":2\x7d" then some (.obj [("b", .num 2)])
  else if l = strL "\x7b\"id\":1\x7d" then some (.obj [("id", .num 1)])
  else if l = strL "\x7b\"id\":2\x7d" then some (.obj [("id", .num 2)])
  else if l = strL "\x7b\"id\":3\x7d" then some (.obj [("id", .num 3)])
  else if l = strL "\x7b\"id\":4\x7d" then some (.obj [("id", .num 4)])
  else if l = strL "\x7b\"id\":5\x7d" then some (.obj [("id", .num 5)])
  else if l = strL "\x7b\"id\":\"k\"\x7d" then some (.obj [("id", .str "k")])
  else if l = strL "[\"n\",\"a\"]" then some (.arr [.str "n", .str "a"])
  else if l = strL "[\"x\",1]" then some (.arr [.str "x", .num 1])
  else none

/-- A concrete fragment of the host `Number` coercion. -/
def numberOfW : JSVal → Option Int
  | .num n => some n
  | .bool true => some 1
  | .bool false => some 0
  | .null => some 0
  | .str s => if s = "5" then some 5 else none
  | _ => none

/-- A concrete fragment of the host `String` coercion. -/
def toStrW : JSVal → String
  | .str s => s
  | .num n => toString n
  | .bool true => "true"
  | .bool false => "false"
  | .null => "null"
  | .undefined => "undefined"
  | _ => ""

/-- A concrete fragment of the host date parsing: only the string `D`
parses as a date. -/
def dateParseW : JSVal → Option Int
  | .str "D" => some 7
  | _ => none

/-- The concrete host used by the witnesses. -/
def hostW : Host :=
  { decode := decodeW, numberOf := numberOfW, dateParse := dateParseW,
    toStr := toStrW }

/-- A state whose counters already passed a truthy `to_line` or `to` bound:
from here the engine can never push another record. -/
def deadCtx (cfg : Config) (c : Ctx) : Bool :=
  winAfter cfg.to_line c.lines || winAfter cfg.to_ c.records

/-- The string literals recognized by the `cast === true` branch before the
numeric test. -/
def isCastLiteral : JSVal → Bool
  | .str s =>
    s == "" || s == "true" || s == "false" || s == "null" || s == "undefined"
  | _ => false

/-- Configuration with `maxLineLength: 1` (finite, so the overflow guard
is armed at buffer length greater than ten). -/
def cfgML1 : Config := mkConfig { maxLineLength := some 1 }

/-- Configuration with the record window `from: 2, to: 3`. -/
def cfg23 : Config := mkConfig { from_ := some 2, to_ := some 3 }

/-- Configuration with `columns: true`. -/
def cfgCols : Config := mkConfig { columns := some .ctrue }

/-- Configuration with the line window `to_line: 1`. -/
def cfgTL1 : Config := mkConfig { to_line := some 1 }

/-- Configuration with the record window `to: 1` (strict by default). -/
def cfgTo1 : Config := mkConfig { to_ := some 1 }

/-- Configuration with `info: true` and `objname: id`. -/
def cfgObjInfo : Config := mkConfig { info := some true, objname := some "id" }

/-- Configuration with a `cast` function returning the date-parsable string
`D` and `cast_date: true`. -/
def cfgC6 : Config :=
  mkConfig { cast := some (.func (fun _ _ => .str "D")),
             cast_date := some .ctrue }

/-- The state carried by a line result. -/
def lineResState : LineRes → LState
  | .cont s _ => s
  | .brk s _ => s
  | .fatal s _ _ => s

/-- The outputs carried by a line result. -/
def lineResOuts : LineRes → List Out
  | .cont _ o => o
  | .brk _ o => o
  | .fatal _ o _ => o

/-- Whether a line result is the window `break`. -/
def lineResBrk : LineRes → Bool
  | .brk _ _ => true
  | _ => false

/-- C5, amended claim: the buffer-overflow guard is unconditional — whenever
the pending tail plus the incoming chunk exceeds ten times a finite
`maxLineLength`, `_transform` fails at once with the fatal overflow error,
for an arbitrary configuration (so independently of `strict`, `on_skip` and
`skip_records_with_error`), before any line of the chunk is processed.
The amendment drops the claim's final clause: the condition can also arise
when the accumulation does contain line terminators (see the
counterexample). -/
theorem C5_overflow_unconditional (cfg : Config) (host : Host) (s : PState)
    (chunk : List Char) (m : Int) (hm : cfg.maxLineLength = some m)
    (hlen : ((s.buffer ++ chunk).length : Int) > m * 10) :
    transform cfg host s chunk =
      ({ s with buffer := s.buffer ++ chunk }, [], some .overflow) := by
  have h : overflowGt cfg (s.buffer ++ chunk) = true := by
    unfold overflowGt
    rw [hm]
    simpa using hlen
  unfold transform
  simp [h]

/-- Witness for C5: the amended theorem applied at the configuration with
`maxLineLength: 1`, the initial state and a twelve-character chunk. -/
theorem C5_overflow_unconditional_witness :
    transform cfgML1 hostW initState (strL "1\n1\n1\n1\n1\n1\n") =
      ({ initState with buffer := strL "1\n1\n1\n1\n1\n1\n" }, [],
        some .overflow) :=
  C5_overflow_unconditional cfgML1 hostW initState (strL "1\n1\n1\n1\n1\n1\n")
    1 rfl (by decide)

/-- Counterexample for C5 as stated: the overflow condition arises on an
input that does contain line terminators (six of them), refuting the
claim's clause that it arises only when the accumulation contains no line
terminator. -/
theorem C5_counterexample :
    errOf (run cfgML1 hostW [strL "1\n1\n1\n1\n1\n1\n"]) = some .overflow ∧
    '\n' ∈ strL "1\n1\n1\n1\n1\n1\n" :=
  ⟨rfl, by decide⟩

/-- C6, amended claim: date coercion is not applied after every cast; it
runs only when the cast branch falls through.  A function-valued `cast`
returns directly and `cast_date` is never consulted; with `cast === true` a
recognized literal or a numeric value is returned directly, likewise
skipping `cast_date`; only for other values (or with `cast` unset) does the
`cast_date` block run, where `cast_date === true` coerces a truthy
date-parsable value to a date and a function-valued `cast_date` overrides
the value. -/
theorem C6_cast_date_only_on_fallthrough (cfg : Config) (host : Host)
    (v : JSVal) (ctx : Ctx) :
    (∀ f, cfg.cast = .func f → castValue cfg host v ctx = f v ctx) ∧
    (∀ n, cfg.cast = .ctrue → isCastLiteral v = false →
      host.numberOf v = some n → castValue cfg host v ctx = .num n) ∧
    (cfg.cast = .ctrue → isCastLiteral v = false → host.numberOf v = none →
      castValue cfg host v ctx = castDatePart cfg host v ctx) ∧
    (cfg.cast = .off → castValue cfg host v ctx = castDatePart cfg host v ctx) ∧
    (∀ f, cfg.cast_date = .func f → castDatePart cfg host v ctx = f v ctx) ∧
    (∀ ms, cfg.cast_date = .ctrue → v.truthy = true →
      host.dateParse v = some ms → castDatePart cfg host v ctx = .date ms) := by
  refine ⟨?_, ?_, ?_, ?_, ?_, ?_⟩
  · intro f hf
    unfold castValue
    rw [hf]
  · intro n hc hlit hnum
    unfold castValue
    rw [hc]
    cases v <;> simp_all [isCastLiteral]
  · intro hc hlit hnum
    unfold castValue
    rw [hc]
    cases v <;> simp_all [isCastLiteral]
  · intro hc
    unfold castValue
    rw [hc]
  · intro f hf
    unfold castDatePart
    rw [hf]
  · intro ms hd htr hp
    unfold castDatePart
    rw [hd]
    simp [htr, hp]

/-- Witness for C6: the amended theorem applied at the concrete
configuration `cfgC6` (cast function returning the string `D`) and at a
configuration with `cast` unset and `cast_date: true` on a date-parsable
value. -/
theorem C6_cast_date_only_on_fallthrough_witness :
    castValue cfgC6 hostW (.str "x") ⟨0, 0, 0⟩ = .str "D" ∧
    castDatePart (mkConfig { cast_date := some .ctrue }) hostW (.str "D")
      ⟨0, 0, 0⟩ = .date 7 := by
  constructor
  · exact (C6_cast_date_only_on_fallthrough cfgC6 hostW (.str "x")
      ⟨0, 0, 0⟩).1 _ rfl
  · exact (C6_cast_date_only_on_fallthrough
      (mkConfig { cast_date := some .ctrue }) hostW (.str "D")
      ⟨0, 0, 0⟩).2.2.2.2.2 7 rfl (by decide) rfl

/-- Counterexample for C6 as stated: with a `cast` function producing the
string `D`, which the host parses as a valid date (timestamp 7), and with
`cast_date === true`, the claim demands the result be coerced to that date;
the code returns the string unchanged because the cast branch returned
early and the `cast_date` block was never reached. -/
theorem C6_counterexample :
    castValue cfgC6 hostW (.str "x") ⟨0, 0, 0⟩ = .str "D" ∧
    hostW.dateParse (.str "D") = some 7 ∧
    JSVal.str "D" ≠ JSVal.date 7 :=
  ⟨rfl, rfl, by simp⟩

/-- C7, amended claim: when `objname` is a non-empty (truthy) name of a
field present and truthy on the (post-`on_record`, pre-enrichment) record,
the final output is a single-entry mapping from that field's value to the
bare record itself — replacing, not wrapping, any `info`/`raw` enrichment
(the configuration, including `info` and `raw`, is arbitrary here). -/
theorem C7_objname_maps_to_bare_record (cfg : Config) (host : Host)
    (ctx : Ctx) (record : JSVal) (line : List Char) (nm : String)
    (h0 : nm ≠ "") (h1 : cfg.objname = some nm) (h2 : isObjLike record = true)
    (h3 : (jsGet record nm).truthy = true) :
    shapeOutput cfg host ctx record line =
      .obj [(host.toStr (jsGet record nm), record)] := by
  unfold shapeOutput
  simp [h1, h2, h3, String.isEmpty_iff, h0]

/-- Witness for C7: the amended theorem applied at the configuration with
`info: true` and `objname: id` and the record with field `id = k`. -/
theorem C7_objname_maps_to_bare_record_witness :
    shapeOutput cfgObjInfo hostW ⟨1, 0, 0⟩ (.obj [("id", .str "k")])
      (strL "\x7b\"id\":\"k\"\x7d") =
      .obj [("k", .obj [("id", .str "k")])] := by
  have h := C7_objname_maps_to_bare_record cfgObjInfo hostW ⟨1, 0, 0⟩
    (.obj [("id", .str "k")]) (strL "\x7b\"id\":\"k\"\x7d") "id" (by decide)
    rfl rfl rfl
  simpa using h

/-- Counterexample for C7 as stated: with `info: true` and `objname: id`,
the run emits the mapping to the bare record, not to the enriched
`info`/`record` wrapper the claim requires. -/
theorem C7_counterexample :
    recsOf (run cfgObjInfo hostW [strL "\x7b\"id\":\"k\"\x7d\n"]) =
      [.obj [("k", .obj [("id", .str "k")])]] ∧
    JSVal.obj [("k", .obj [("id", .str "k")])] ≠
      JSVal.obj [("k", .obj [("info", ctxVal ⟨1, 0, 0⟩),
                             ("record", .obj [("id", .str "k")])])] := by
  refine ⟨rfl, ?_⟩
  simp [ctxVal]

/-- C9: a line whose decoded value is `null` is silently discarded even
under the default configuration (strict, no skip options): it is never
pushed and `records` does not increment — and, in general, any line whose
`processRecord` result is the `null` sentinel is discarded the same way. -/
theorem C9_null_line_discarded :
    (∀ (cfg : Config) (host : Host) (s : LState) (line0 : List Char)
      (parsed : JSVal) (hdr : Option (List String)) (hp : Bool),
      winBefore cfg.from_line (s.ctx.lines + 1) = false →
      winAfter cfg.to_line (s.ctx.lines + 1) = false →
      lenGtMax cfg line0 = false →
      (cfg.skipEmptyLines &&
        (if cfg.skipEmptyLines then jsTrim line0 else
          trimValue cfg line0).isEmpty) = false →
      host.decode (if cfg.skipEmptyLines then jsTrim line0 else
        trimValue cfg line0) = some parsed →
      processRecord cfg host s.headerColumns s.headerProcessed
        ⟨s.ctx.lines + 1, s.ctx.records, s.ctx.invalid_field_length⟩ parsed
        (if cfg.skipEmptyLines then jsTrim line0 else trimValue cfg line0) =
        (.null, hdr, hp) →
      processLine cfg host s line0 =
        .cont { ctx := ⟨s.ctx.lines + 1, s.ctx.records,
                        s.ctx.invalid_field_length⟩,
                headerColumns := hdr, headerProcessed := hp } []) ∧
    (∀ (host : Host) (s : LState) (line0 : List Char),
      host.decode (jsTrim line0) = some .null →
      (jsTrim line0).isEmpty = false →
      processLine defaultConfig host s line0 =
        .cont { ctx := ⟨s.ctx.lines + 1, s.ctx.records,
                        s.ctx.invalid_field_length⟩,
                headerColumns := s.headerColumns,
                headerProcessed := s.headerProcessed } []) := by
  have general : ∀ (cfg : Config) (host : Host) (s : LState)
      (line0 : List Char) (parsed : JSVal) (hdr : Option (List String))
      (hp : Bool),
      winBefore cfg.from_line (s.ctx.lines + 1) = false →
      winAfter cfg.to_line (s.ctx.lines + 1) = false →
      lenGtMax cfg line0 = false →
      (cfg.skipEmptyLines &&
        (if cfg.skipEmptyLines then jsTrim line0 else
          trimValue cfg line0).isEmpty) = false →
      host.decode (if cfg.skipEmptyLines then jsTrim line0 else
        trimValue cfg line0) = some parsed →
      processRecord cfg host s.headerColumns s.headerProcessed
        ⟨s.ctx.lines + 1, s.ctx.records, s.ctx.invalid_field_length⟩ parsed
        (if cfg.skipEmptyLines then jsTrim line0 else trimValue cfg line0) =
        (.null, hdr, hp) →
      processLine cfg host s line0 =
        .cont { ctx := ⟨s.ctx.lines + 1, s.ctx.records,
                        s.ctx.invalid_field_length⟩,
                headerColumns := hdr, headerProcessed := hp } [] := by
    intro cfg host s line0 parsed hdr hp h1 h2 h3 h4 h5 h6
    simp only [processLine, h1, h2, h3, Bool.false_eq_true, if_false, h4, h5,
      h6, JSVal.isNull]
    simp
  refine ⟨general, ?_⟩
  intro host s line0 hdec hne
  have hse : defaultConfig.skipEmptyLines = true := rfl
  have hpr : processRecord defaultConfig host s.headerColumns
      s.headerProcessed
      ⟨s.ctx.lines + 1, s.ctx.records, s.ctx.invalid_field_length⟩ .null
      (if defaultConfig.skipEmptyLines then jsTrim line0 else
        trimValue defaultConfig line0) =
      (.null, s.headerColumns, s.headerProcessed) := by
    cases hc : s.headerColumns <;> rfl
  exact general defaultConfig host s line0 .null s.headerColumns
    s.headerProcessed rfl rfl rfl (by rw [hse]; simp [hne])
    (by rw [hse]; simpa using hdec) hpr

/-- C2: whenever a line error condition arises (line too long, or JSON
decode failure), both in `_transform` and in `_flush`, the policy ladder is
applied in exactly this order: (1) with `on_skip` configured the hook is
invoked with the error and the offending line and processing continues;
(2) else with `skip_records_with_error` the line is silently skipped;
(3) else with `strict` (the default) the error is raised — and the run
halts, dropping all remaining chunks and the flush; (4) else the line is
silently skipped. -/
theorem C2_error_policy_ladder (cfg : Config) (host : Host) :
    (∀ (s : LState) (line0 : List Char),
      winBefore cfg.from_line (s.ctx.lines + 1) = false →
      winAfter cfg.to_line (s.ctx.lines + 1) = false →
      lenGtMax cfg line0 = true →
      processLine cfg host s line0 =
        (if cfg.on_skip then
          .cont ⟨⟨s.ctx.lines + 1, s.ctx.records,
                  s.ctx.invalid_field_length + 1⟩, s.headerColumns,
                 s.headerProcessed⟩
            [.skipCall (.tooLong line0.length) line0]
        else if cfg.skip_records_with_error then
          .cont ⟨⟨s.ctx.lines + 1, s.ctx.records,
                  s.ctx.invalid_field_length + 1⟩, s.headerColumns,
                 s.headerProcessed⟩ []
        else if cfg.strict then
          .fatal ⟨⟨s.ctx.lines + 1, s.ctx.records,
                   s.ctx.invalid_field_length + 1⟩, s.headerColumns,
                  s.headerProcessed⟩ [] (.tooLong line0.length)
        else
          .cont ⟨⟨s.ctx.lines + 1, s.ctx.records,
                  s.ctx.invalid_field_length + 1⟩, s.headerColumns,
                 s.headerProcessed⟩ [])) ∧
    (∀ (s : LState) (line0 : List Char),
      winBefore cfg.from_line (s.ctx.lines + 1) = false →
      winAfter cfg.to_line (s.ctx.lines + 1) = false →
      lenGtMax cfg line0 = false →
      (cfg.skipEmptyLines &&
        (if cfg.skipEmptyLines then jsTrim line0 else
          trimValue cfg line0).isEmpty) = false →
      host.decode (if cfg.skipEmptyLines then jsTrim line0 else
        trimValue cfg line0) = none →
      processLine cfg host s line0 =
        (if cfg.on_skip then
          .cont ⟨⟨s.ctx.lines + 1, s.ctx.records,
                  s.ctx.invalid_field_length⟩, s.headerColumns,
                 s.headerProcessed⟩
            [.skipCall
              (.badJSON (s.ctx.lines + 1)
                ((if cfg.skipEmptyLines then jsTrim line0 else
                  trimValue cfg line0).take 50))
              (if cfg.skipEmptyLines then jsTrim line0 else
                trimValue cfg line0)]
        else if cfg.skip_records_with_error then
          .cont ⟨⟨s.ctx.lines + 1, s.ctx.records,
                  s.ctx.invalid_field_length⟩, s.headerColumns,
                 s.headerProcessed⟩ []
        else if cfg.strict then
          .fatal ⟨⟨s.ctx.lines + 1, s.ctx.records,
                   s.ctx.invalid_field_length⟩, s.headerColumns,
                  s.headerProcessed⟩ []
            (.badJSON (s.ctx.lines + 1)
              ((if cfg.skipEmptyLines then jsTrim line0 else
                trimValue cfg line0).take 50))
        else
          .cont ⟨⟨s.ctx.lines + 1, s.ctx.records,
                  s.ctx.invalid_field_length⟩, s.headerColumns,
                 s.headerProcessed⟩ [])) ∧
    (∀ (ps : PState),
      ps.buffer.isEmpty = false →
      winBefore cfg.from_line (ps.st.ctx.lines + 1) = false →
      winAfter cfg.to_line (ps.st.ctx.lines + 1) = false →
      lenGtMax cfg ps.buffer = true →
      flush cfg host ps =
        (if cfg.on_skip then
          (⟨ps.buffer, ⟨⟨ps.st.ctx.lines + 1, ps.st.ctx.records,
            ps.st.ctx.invalid_field_length + 1⟩, ps.st.headerColumns,
            ps.st.headerProcessed⟩⟩,
           [.skipCall (.finalTooLong ps.buffer.length) ps.buffer], none)
        else if cfg.skip_records_with_error then
          (⟨ps.buffer, ⟨⟨ps.st.ctx.lines + 1, ps.st.ctx.records,
            ps.st.ctx.invalid_field_length + 1⟩, ps.st.headerColumns,
            ps.st.headerProcessed⟩⟩, [], none)
        else if cfg.strict then
          (⟨ps.buffer, ⟨⟨ps.st.ctx.lines + 1, ps.st.ctx.records,
            ps.st.ctx.invalid_field_length + 1⟩, ps.st.headerColumns,
            ps.st.headerProcessed⟩⟩, [],
           some (.finalTooLong ps.buffer.length))
        else
          (⟨ps.buffer, ⟨⟨ps.st.ctx.lines + 1, ps.st.ctx.records,
            ps.st.ctx.invalid_field_length + 1⟩, ps.st.headerColumns,
            ps.st.headerProcessed⟩⟩, [], none))) ∧
    (∀ (ps : PState),
      ps.buffer.isEmpty = false →
      winBefore cfg.from_line (ps.st.ctx.lines + 1) = false →
      winAfter cfg.to_line (ps.st.ctx.lines + 1) = false →
      lenGtMax cfg ps.buffer = false →
      (cfg.skipEmptyLines &&
        (if cfg.skipEmptyLines then jsTrim ps.buffer else
          trimValue cfg ps.buffer).isEmpty) = false →
      host.decode (if cfg.skipEmptyLines then jsTrim ps.buffer else
        trimValue cfg ps.buffer) = none →
      flush cfg host ps =
        (if cfg.on_skip then
          (⟨ps.buffer, ⟨⟨ps.st.ctx.lines + 1, ps.st.ctx.records,
            ps.st.ctx.invalid_field_length⟩, ps.st.headerColumns,
            ps.st.headerProcessed⟩⟩,
           [.skipCall
             (.finalBadJSON ((if cfg.skipEmptyLines then jsTrim ps.buffer
               else trimValue cfg ps.buffer).take 50))
             (if cfg.skipEmptyLines then jsTrim ps.buffer else
               trimValue cfg ps.buffer)], none)
        else if cfg.skip_records_with_error then
          (⟨ps.buffer, ⟨⟨ps.st.ctx.lines + 1, ps.st.ctx.records,
            ps.st.ctx.invalid_field_length⟩, ps.st.headerColumns,
            ps.st.headerProcessed⟩⟩, [], none)
        else if cfg.strict then
          (⟨ps.buffer, ⟨⟨ps.st.ctx.lines + 1, ps.st.ctx.records,
            ps.st.ctx.invalid_field_length⟩, ps.st.headerColumns,
            ps.st.headerProcessed⟩⟩, [],
           some (.finalBadJSON ((if cfg.skipEmptyLines then jsTrim ps.buffer
             else trimValue cfg ps.buffer).take 50)))
        else
          (⟨ps.buffer, ⟨⟨ps.st.ctx.lines + 1, ps.st.ctx.records,
            ps.st.ctx.invalid_field_length⟩, ps.st.headerColumns,
            ps.st.headerProcessed⟩⟩, [], none))) ∧
    (∀ (ps ps' : PState) (chunk : List Char) (rest : List (List Char))
       (outs : List Out) (e : Err),
      transform cfg host ps chunk = (ps', outs, some e) →
      runFrom cfg host ps (chunk :: rest) = (ps', outs, some e)) := by
  refine ⟨?_, ?_, ?_, ?_, ?_⟩
  · intro s line0 h1 h2 hlen
    simp only [processLine, h1, h2, hlen, Bool.false_eq_true, if_false,
      if_true]
  · intro s line0 h1 h2 hlen hne hdec
    simp only [processLine, h1, h2, hlen, Bool.false_eq_true, if_false,
      hne, hdec]
  · intro ps hne h1 h2 hlen
    simp only [flush, hne, Bool.false_eq_true, if_false, h1, h2, hlen,
      if_true]
  · intro ps hne h1 h2 hlen hemp hdec
    simp only [flush, hne, Bool.false_eq_true, if_false, h1, h2, hlen,
      hemp, hdec]
  · intro ps ps' chunk rest outs e htr
    unfold runFrom feedAll
    rw [htr]

/-- Witness for C2: a malformed line under the default (strict, no hook)
configuration raises the decode error and the run halts before a later
chunk and the flush. -/
theorem C2_error_policy_ladder_witness :
    processLine defaultConfig hostW
      { ctx := ⟨0, 0, 0⟩, headerColumns := none, headerProcessed := false }
      (strL "x") =
      .fatal { ctx := ⟨1, 0, 0⟩, headerColumns := none,
               headerProcessed := false } [] (.badJSON 1 (strL "x")) := by
  have h := (C2_error_policy_ladder defaultConfig hostW).2.1
    { ctx := ⟨0, 0, 0⟩, headerColumns := none, headerProcessed := false }
    (strL "x") rfl rfl rfl (by decide) rfl
  simpa using h

/-- Helper: JS property assignment appends when the key is fresh. -/
theorem objSet_append (fs : List (String × JSVal)) (k : String) (v : JSVal)
    (h : ∀ kv ∈ fs, kv.1 ≠ k) : objSet fs k v = fs ++ [(k, v)] := by
  induction fs with
  | nil => rfl
  | cons kv rest ih =>
    obtain ⟨k', v'⟩ := kv
    have hk : k' ≠ k := h (k', v') (List.mem_cons_self _ _)
    simp only [objSet, if_neg hk, List.cons_append, List.cons.injEq, true_and]
    exact ih (fun kv' hkv' => h kv' (List.mem_cons_of_mem _ hkv'))

/-- Helper: folding fresh-keyed assignments over an indexed name list just
appends the corresponding pairs in order. -/
theorem foldl_objSet_fresh (xs : List JSVal) :
    ∀ (l : List (Nat × String)) (acc : List (String × JSVal)),
      (∀ p ∈ l, ∀ kv ∈ acc, kv.1 ≠ p.2) → (l.map Prod.snd).Nodup →
      l.foldl (fun a ic => objSet a ic.2 (atOrNull xs ic.1)) acc =
        acc ++ l.map (fun ic => (ic.2, atOrNull xs ic.1)) := by
  intro l
  induction l with
  | nil => intro acc _ _; simp
  | cons p rest ih =>
    intro acc h hn
    simp only [List.map_cons, List.nodup_cons] at hn
    simp only [List.foldl_cons, List.map_cons]
    rw [objSet_append acc p.2 _
      (fun kv hkv => h p (List.mem_cons_self _ _) kv hkv)]
    rw [ih (acc ++ [(p.2, atOrNull xs p.1)]) ?_ hn.2]
    · simp
    · intro q hq kv hkv
      rcases List.mem_append.mp hkv with hkv | hkv
      · exact h q (List.mem_cons_of_mem _ hq) kv hkv
      · simp only [List.mem_singleton] at hkv
        subst hkv
        intro hcontra
        have hpq : p.2 = q.2 := hcontra
        apply hn.1
        rw [hpq]
        exact List.mem_map_of_mem Prod.snd hq

/-- Helper: with duplicate-free header names, zipping builds exactly the
pairing of each name with the corresponding array element (or null). -/
theorem zipHeader_eq_map (names : List String) (xs : List JSVal)
    (h : names.Nodup) :
    zipHeader names xs =
      .obj (names.enum.map (fun ic => (ic.2, atOrNull xs ic.1))) := by
  unfold zipHeader
  rw [foldl_objSet_fresh xs names.enum [] (by simp)
    (by rw [List.enum_map_snd]; exact h)]
  simp

/-- Helper: with `headerProcessed` already true, the column block never
re-learns the header: it keeps the record and the header state unchanged. -/
theorem columnStage_hp_done (cols : ColumnsOpt) (host : Host)
    (hdr0 : Option (List String)) (parsed : JSVal) :
    ∃ r, columnStage cols host hdr0 true parsed = .keep r hdr0 true := by
  cases cols <;> cases hdr0 <;> cases parsed <;> exact ⟨_, rfl⟩

/-- C4: with `columns === true`, the first decoded value is consumed as the
header (stringified elements of an array, key order of an object, the
empty key list of a date, the header left unchanged by any other value)
and yields the discard sentinel, so no record is emitted for it; header
learning is one-shot (with `headerProcessed` set, no configuration ever
touches the header state again); each subsequent decoded array is zipped
against the learned names, null standing in for positions at or beyond the
array length; and the concrete example from the claim holds. -/
theorem C4_columns_true_header :
    (∀ (cfg : Config) (host : Host) (hdr0 : Option (List String)) (ctx : Ctx)
      (parsed : JSVal) (line : List Char), cfg.columns = .ctrue →
      processRecord cfg host hdr0 false ctx parsed line =
        (.null,
         (match parsed with
          | .arr xs => some (xs.map host.toStr)
          | .obj fs => some (fs.map Prod.fst)
          | .date _ => some []
          | _ => hdr0), true)) ∧
    (∀ (cfg : Config) (host : Host) (hdr0 : Option (List String)) (ctx : Ctx)
      (parsed : JSVal) (line : List Char),
      (processRecord cfg host hdr0 true ctx parsed line).2 = (hdr0, true)) ∧
    (∀ (host : Host) (names : List String) (xs : List JSVal),
      columnStage .ctrue host (some names) true (.arr xs) =
        .keep (zipHeader names xs) (some names) true) ∧
    (∀ (names : List String) (xs : List JSVal), names.Nodup →
      zipHeader names xs =
        .obj (names.enum.map (fun ic => (ic.2, atOrNull xs ic.1)))) ∧
    (∀ (xs : List JSVal) (i : Nat), xs.length ≤ i → atOrNull xs i = .null) ∧
    recsOf (run cfgCols hostW [strL "[\"n\",\"a\"]\n[\"x\",1]\n"]) =
      [.obj [("n", .str "x"), ("a", .num 1)]] := by
  refine ⟨?_, ?_, ?_, zipHeader_eq_map, ?_, rfl⟩
  · intro cfg host hdr0 ctx parsed line hcol
    unfold processRecord
    rw [hcol]
    rfl
  · intro cfg host hdr0 ctx parsed line
    obtain ⟨r, hr⟩ := columnStage_hp_done cfg.columns host hdr0 parsed
    unfold processRecord
    rw [hr]
    dsimp only
    split
    · rfl
    · split
      · split <;> rfl
      · rfl
  · intro host names xs
    rfl
  · intro xs i hle
    unfold atOrNull
    rw [List.get?_eq_none.mpr hle]

/-- Witness for C4: the header line learns the names `n`, `a`, and zipping
pads a short array with null. -/
theorem C4_columns_true_header_witness :
    processRecord cfgCols hostW none false ⟨1, 0, 0⟩
      (.arr [.str "n", .str "a"]) (strL "[\"n\",\"a\"]") =
      (.null, some ["n", "a"], true) ∧
    zipHeader ["n", "a"] [.str "x"] = .obj [("n", .str "x"), ("a", .null)] := by
  constructor
  · have h := C4_columns_true_header.1 cfgCols hostW none ⟨1, 0, 0⟩
      (.arr [.str "n", .str "a"]) (strL "[\"n\",\"a\"]") rfl
    simpa using h
  · have h := C4_columns_true_header.2.2.2.1 ["n", "a"] [.str "x"]
      (by simp)
    simpa using h

/-- Helper: unfolding a run on a cons cell: feed the first chunk, stop on a
fatal error, otherwise run the rest and prepend the outputs. -/
theorem runFrom_cons (cfg : Config) (host : Host) (s : PState)
    (c : List Char) (cs : List (List Char)) :
    runFrom cfg host s (c :: cs) =
      (match transform cfg host s c with
       | (s', outs, some e) => (s', outs, some e)
       | (s', outs, none) =>
         match runFrom cfg host s' cs with
         | (s'', outs2, e) => (s'', outs ++ outs2, e)) := by
  cases htr : transform cfg host s c with
  | mk s' r =>
    obtain ⟨outs, e⟩ := r
    cases e with
    | some e =>
      have hfa : feedAll cfg host s (c :: cs) = (s', outs, some e) := by
        unfold feedAll
        simp [htr]
      unfold runFrom
      rw [hfa]
    | none =>
      cases hfd : feedAll cfg host s' cs with
      | mk s'' r2 =>
        obtain ⟨outs2, e2⟩ := r2
        have hfa : feedAll cfg host s (c :: cs) = (s'', outs ++ outs2, e2) := by
          unfold feedAll
          simp [htr, hfd]
        unfold runFrom
        rw [hfa]
        simp only [hfd]
        cases e2 with
        | some e2 => rfl
        | none =>
          cases hflu : flush cfg host s'' with
          | mk s3 r3 =>
            obtain ⟨outs3, e3⟩ := r3
            simp [hflu, List.append_assoc]

/-- Helper: the chunk line loop only depends on the configuration through
`processLine`. -/
theorem runLinesChunk_congr (c1 c2 : Config) (host : Host)
    (h : ∀ s l, processLine c1 host s l = processLine c2 host s l) :
    ∀ (ls : List (List Char)) (s : LState),
      runLinesChunk c1 host s ls = runLinesChunk c2 host s ls := by
  intro ls
  induction ls with
  | nil => intro s; rfl
  | cons l rest ih =>
    intro s
    unfold runLinesChunk
    rw [h]
    simp only [ih]

/-- Helper: `_transform` only depends on the configuration through
`processLine` and the overflow bound. -/
theorem transform_congr (c1 c2 : Config) (host : Host)
    (h : ∀ s l, processLine c1 host s l = processLine c2 host s l)
    (hml : c1.maxLineLength = c2.maxLineLength) :
    ∀ (s : PState) (c : List Char),
      transform c1 host s c = transform c2 host s c := by
  intro s c
  have ho : overflowGt c1 (s.buffer ++ c) = overflowGt c2 (s.buffer ++ c) := by
    unfold overflowGt
    rw [hml]
  simp only [transform, ho, runLinesChunk_congr c1 c2 host h]

/-- Helper: a whole run only depends on the configuration through
`processLine`, `flush` and the overflow bound. -/
theorem runFrom_congr (c1 c2 : Config) (host : Host)
    (h : ∀ s l, processLine c1 host s l = processLine c2 host s l)
    (hfl : ∀ s, flush c1 host s = flush c2 host s)
    (hml : c1.maxLineLength = c2.maxLineLength) :
    ∀ (chunks : List (List Char)) (s : PState),
      runFrom c1 host s chunks = runFrom c2 host s chunks := by
  intro chunks
  induction chunks with
  | nil =>
    intro s
    simp only [runFrom, feedAll, hfl]
  | cons c rest ih =>
    intro s
    rw [runFrom_cons c1, runFrom_cons c2, transform_congr c1 c2 host h hml]
    simp only [ih]

/-- C10: zero-valued numeric options behave as unset.  `maxLineLength: 0`
normalizes to unbounded already in the constructor, and a zero `from`,
`to`, `from_line` or `to_line` yields exactly the same run as the option
being absent, because the window guards test the option's truthiness before
comparing. -/
theorem C10_zero_options_disable :
    (∀ o : Options,
      mkConfig { o with maxLineLength := some 0 } =
        mkConfig { o with maxLineLength := none }) ∧
    (∀ (o : Options) (host : Host) (chunks : List (List Char)),
      run (mkConfig { o with from_ := some 0 }) host chunks =
        run (mkConfig { o with from_ := none }) host chunks) ∧
    (∀ (o : Options) (host : Host) (chunks : List (List Char)),
      run (mkConfig { o with to_ := some 0 }) host chunks =
        run (mkConfig { o with to_ := none }) host chunks) ∧
    (∀ (o : Options) (host : Host) (chunks : List (List Char)),
      run (mkConfig { o with from_line := some 0 }) host chunks =
        run (mkConfig { o with from_line := none }) host chunks) ∧
    (∀ (o : Options) (host : Host) (chunks : List (List Char)),
      run (mkConfig { o with to_line := some 0 }) host chunks =
        run (mkConfig { o with to_line := none }) host chunks) := by
  refine ⟨fun o => rfl, ?_, ?_, ?_, ?_⟩
  · intro o host chunks
    exact runFrom_congr (mkConfig { o with from_ := some 0 })
      (mkConfig { o with from_ := none }) host (fun s l => rfl)
      (fun s => rfl) rfl chunks initState
  · intro o host chunks
    exact runFrom_congr (mkConfig { o with to_ := some 0 })
      (mkConfig { o with to_ := none }) host (fun s l => rfl)
      (fun s => rfl) rfl chunks initState
  · intro o host chunks
    exact runFrom_congr (mkConfig { o with from_line := some 0 })
      (mkConfig { o with from_line := none }) host (fun s l => rfl)
      (fun s => rfl) rfl chunks initState
  · intro o host chunks
    exact runFrom_congr (mkConfig { o with to_line := some 0 })
      (mkConfig { o with to_line := none }) host (fun s l => rfl)
      (fun s => rfl) rfl chunks initState

/-- Witness for C9: the literal line `null`, fed to the default
configuration, increments the line counter only and emits nothing. -/
theorem C9_null_line_discarded_witness :
    processLine defaultConfig hostW
      { ctx := ⟨0, 0, 0⟩, headerColumns := none, headerProcessed := false }
      (strL "null") =
      .cont { ctx := ⟨1, 0, 0⟩, headerColumns := none,
              headerProcessed := false } [] := by
  have h := C9_null_line_discarded.2 hostW
    { ctx := ⟨0, 0, 0⟩, headerColumns := none, headerProcessed := false }
    (strL "null") rfl (by decide)
  simpa using h

/-- Helper: pushed records concatenate over output logs. -/
theorem pushes_append (a b : List Out) : pushes (a ++ b) = pushes a ++ pushes b :=
  List.filterMap_append a b _

/-- Helper: the splitter is a stream homomorphism: splitting a
concatenation continues from the carried tail. -/
theorem splitLinesAux_append (a b : List Char) :
    ∀ cur, splitLinesAux cur (a ++ b) =
      ((splitLinesAux cur a).1 ++ (splitLinesAux (splitLinesAux cur a).2 b).1,
       (splitLinesAux (splitLinesAux cur a).2 b).2) := by
  induction a with
  | nil => intro cur; simp [splitLinesAux]
  | cons c rest ih =>
    intro cur
    by_cases hc : c = '\n'
    · subst hc
      simp [splitLinesAux, ih]
    · simp [splitLinesAux, hc, ih]

/-- Helper: a newline-free input splits into no lines and extends the tail. -/
theorem splitLinesAux_no_nl (l : List Char) :
    ∀ cur, '\n' ∉ l → splitLinesAux cur l = ([], cur ++ l) := by
  induction l with
  | nil => intro cur _; simp [splitLinesAux]
  | cons c rest ih =>
    intro cur h
    have hc : ¬(c = '\n') := by
      intro hh
      exact h (by rw [hh]; exact List.mem_cons_self _ _)
    have hr : '\n' ∉ rest := fun hm => h (List.mem_cons_of_mem _ hm)
    simp [splitLinesAux, hc, ih (cur ++ [c]) hr]

/-- Helper: the tail produced by the splitter never contains a newline. -/
theorem splitLinesAux_tail_no_nl (l : List Char) :
    ∀ cur, '\n' ∉ cur → '\n' ∉ (splitLinesAux cur l).2 := by
  induction l with
  | nil => intro cur h; simpa [splitLinesAux] using h
  | cons c rest ih =>
    intro cur h
    by_cases hc : c = '\n'
    · subst hc
      simpa [splitLinesAux] using ih [] (by simp)
    · simp only [splitLinesAux, hc, if_false]
      refine ih (cur ++ [c]) ?_
      intro hm
      rcases List.mem_append.mp hm with hm | hm
      · exact h hm
      · simp at hm
        exact hc hm.symm

/-- Helper: the splitter yields exactly one line per newline character. -/
theorem splitLinesAux_count (l : List Char) :
    ∀ cur, (splitLinesAux cur l).1.length = nlCount l := by
  induction l with
  | nil => intro cur; simp [splitLinesAux, nlCount]
  | cons c rest ih =>
    intro cur
    by_cases hc : c = '\n'
    · subst hc
      simp [splitLinesAux, nlCount, ih]
    · simp [splitLinesAux, hc, nlCount, ih,
        List.count_cons, Ne.symm hc]

/-- Helper: a newline-free list has no terminators. -/
theorem nlCount_no_nl (l : List Char) (h : '\n' ∉ l) : nlCount l = 0 := by
  unfold nlCount
  exact List.count_eq_zero.mpr h

/-- Helper: truthy upper windows stay exceeded as the counter grows. -/
theorem winAfter_succ (o : Option Int) (c : Nat)
    (h : winAfter o c = true) : winAfter o (c + 1) = true := by
  cases o with
  | none => simp [winAfter] at h
  | some n =>
    simp only [winAfter, Bool.and_eq_true, bne_iff_ne, ne_eq,
      decide_eq_true_eq] at h ⊢
    refine ⟨h.1, ?_⟩
    have := h.2
    push_cast
    omega

/-- Helper: truthy upper windows stay exceeded under any counter growth. -/
theorem winAfter_mono (o : Option Int) (c c' : Nat) (hle : c ≤ c')
    (h : winAfter o c = true) : winAfter o c' = true := by
  cases o with
  | none => simp [winAfter] at h
  | some n =>
    simp only [winAfter, Bool.and_eq_true, bne_iff_ne, ne_eq,
      decide_eq_true_eq] at h ⊢
    refine ⟨h.1, ?_⟩
    have h2 := h.2
    have : (c : Int) ≤ (c' : Int) := by exact_mod_cast hle
    omega

/-- Helper: from a dead state (a truthy upper window already exceeded) a
line never produces a push, and the state stays dead. -/
theorem processLine_dead (cfg : Config) (host : Host) (s : LState)
    (l : List Char) (hd : deadCtx cfg s.ctx = true) :
    ∀ r, processLine cfg host s l = r →
      pushes (lineResOuts r) = [] ∧
      deadCtx cfg (lineResState r).ctx = true := by
  have hd2 : winAfter cfg.to_line s.ctx.lines = true ∨
      winAfter cfg.to_ s.ctx.records = true := by
    simpa [deadCtx, Bool.or_eq_true] using hd
  have hsucc : winAfter cfg.to_line (s.ctx.lines + 1) = true ∨
      winAfter cfg.to_ (s.ctx.records + 1) = true := by
    rcases hd2 with h | h
    · exact Or.inl (winAfter_succ _ _ h)
    · exact Or.inr (winAfter_succ _ _ h)
  intro r hres
  simp only [processLine] at hres
  repeat' split at hres
  all_goals subst hres
  all_goals
    try (exfalso
         rcases hsucc with h | h
         · exact absurd h (by assumption)
         · exact absurd h (by assumption))
  all_goals
    exact ⟨by simp [pushes, lineResOuts], by
      simp only [lineResState, deadCtx, Bool.or_eq_true]
      rcases hd2 with h | h
      · exact Or.inl (winAfter_succ _ _ h)
      · exact Or.inr (winAfter_mono _ _ _ (by omega) h)⟩

/-- Helper: a window `break` only happens once a truthy upper window is
exceeded, so the state after a `break` is dead. -/
theorem processLine_brk_dead (cfg : Config) (host : Host) (s : LState)
    (l : List Char) :
    ∀ s' o, processLine cfg host s l = .brk s' o →
      deadCtx cfg s'.ctx = true := by
  intro s' o hres
  simp only [processLine] at hres
  repeat' split at hres
  all_goals cases hres
  all_goals
    simp only [deadCtx, Bool.or_eq_true]
  all_goals
    first
      | exact Or.inl (by assumption)
      | exact Or.inr (by assumption)

/-- Helper: with both upper windows unset a line never breaks and always
counts exactly one line, whatever else it does. -/
theorem processLine_step (cfg : Config) (host : Host) (s : LState)
    (l : List Char) (hl : cfg.to_line = none) (ht : cfg.to_ = none) :
    lineResBrk (processLine cfg host s l) = false ∧
    (lineResState (processLine cfg host s l)).ctx.lines = s.ctx.lines + 1 := by
  suffices h : ∀ r, processLine cfg host s l = r →
      lineResBrk r = false ∧ (lineResState r).ctx.lines = s.ctx.lines + 1 by
    exact h _ rfl
  intro r hres
  simp only [processLine, hl, ht, winAfter, Bool.false_eq_true,
    if_false] at hres
  repeat' split at hres
  all_goals subst hres
  all_goals exact ⟨rfl, rfl⟩

/-- Helper: the line loop distributes over list append, short-circuiting at
a `break` or a fatal error. -/
theorem runLinesChunk_append (cfg : Config) (host : Host)
    (L1 L2 : List (List Char)) :
    ∀ s, runLinesChunk cfg host s (L1 ++ L2) =
      (match runLinesChunk cfg host s L1 with
       | (s', o, .done) =>
         match runLinesChunk cfg host s' L2 with
         | (s'', o2, x) => (s'', o ++ o2, x)
       | (s', o, .broke) => (s', o, .broke)
       | (s', o, .fatal e) => (s', o, .fatal e)) := by
  induction L1 with
  | nil =>
    intro s
    cases hr : runLinesChunk cfg host s L2 with
    | mk s2 r2 =>
      obtain ⟨o2, x⟩ := r2
      simp [runLinesChunk, hr]
  | cons l rest ih =>
    intro s
    cases hpl : processLine cfg host s l with
    | cont s' outs =>
      cases hr1 : runLinesChunk cfg host s' rest with
      | mk s1 r1 =>
        obtain ⟨o1, x1⟩ := r1
        cases x1 with
        | done =>
          cases hr2 : runLinesChunk cfg host s1 L2 with
          | mk s2 r2 =>
            obtain ⟨o2, x2⟩ := r2
            simp [runLinesChunk, hpl, ih, hr1, hr2, List.append_assoc]
        | broke => simp [runLinesChunk, hpl, ih, hr1]
        | fatal e => simp [runLinesChunk, hpl, ih, hr1]
    | brk s' outs => simp [runLinesChunk, hpl]
    | fatal s' outs e => simp [runLinesChunk, hpl]

/-- Helper: the line loop pushes nothing from a dead state and leaves it
dead. -/
theorem runLinesChunk_dead (cfg : Config) (host : Host) :
    ∀ (ls : List (List Char)) (s : LState), deadCtx cfg s.ctx = true →
      pushes (runLinesChunk cfg host s ls).2.1 = [] ∧
      deadCtx cfg (runLinesChunk cfg host s ls).1.ctx = true := by
  intro ls
  induction ls with
  | nil => intro s hd; exact ⟨rfl, hd⟩
  | cons l rest ih =>
    intro s hd
    cases hpl : processLine cfg host s l with
    | cont s' outs =>
      have h1 := processLine_dead cfg host s l hd _ hpl
      simp only [lineResOuts, lineResState] at h1
      have h2 := ih s' h1.2
      simp [runLinesChunk, hpl, pushes_append, h1.1, h2.1, h2.2]
    | brk s' outs =>
      have h1 := processLine_dead cfg host s l hd _ hpl
      simp only [lineResOuts, lineResState] at h1
      simp [runLinesChunk, hpl, h1.1, h1.2]
    | fatal s' outs e =>
      have h1 := processLine_dead cfg host s l hd _ hpl
      simp only [lineResOuts, lineResState] at h1
      simp [runLinesChunk, hpl, h1.1, h1.2]

/-- Helper: when the line loop ends in a `break`, the resulting state is
dead. -/
theorem runLinesChunk_broke_dead (cfg : Config) (host : Host) :
    ∀ (ls : List (List Char)) (s : LState) s' o,
      runLinesChunk cfg host s ls = (s', o, .broke) →
      deadCtx cfg s'.ctx = true := by
  intro ls
  induction ls with
  | nil => intro s s' o h; simp [runLinesChunk] at h
  | cons l rest ih =>
    intro s s' o h
    cases hpl : processLine cfg host s l with
    | cont s1 outs =>
      simp only [runLinesChunk, hpl] at h
      cases hr : runLinesChunk cfg host s1 rest with
      | mk s2 r2 =>
        obtain ⟨o2, x2⟩ := r2
        rw [hr] at h
        cases x2 with
        | done => simp at h
        | broke =>
          simp at h
          exact h.1 ▸ ih s1 s2 o2 hr
        | fatal e => simp at h
    | brk s1 outs =>
      simp only [runLinesChunk, hpl] at h
      have hd := processLine_brk_dead cfg host s l s1 outs hpl
      cases h
      exact hd
    | fatal s1 outs e =>
      simp only [runLinesChunk, hpl] at h
      cases h

/-- Helper: with both upper windows unset the line loop never breaks, and
when it completes it has counted exactly its lines. -/
theorem runLinesChunk_lines (cfg : Config) (host : Host)
    (hl : cfg.to_line = none) (ht : cfg.to_ = none) :
    ∀ (ls : List (List Char)) (s : LState),
      (runLinesChunk cfg host s ls).2.2 ≠ .broke ∧
      ((runLinesChunk cfg host s ls).2.2 = .done →
        (runLinesChunk cfg host s ls).1.ctx.lines =
          s.ctx.lines + ls.length) := by
  intro ls
  induction ls with
  | nil => intro s; exact ⟨by simp [runLinesChunk], by simp [runLinesChunk]⟩
  | cons l rest ih =>
    intro s
    have hstep := processLine_step cfg host s l hl ht
    cases hpl : processLine cfg host s l with
    | cont s' outs =>
      rw [hpl] at hstep
      simp only [lineResState] at hstep
      cases hr : runLinesChunk cfg host s' rest with
      | mk s2 r2 =>
        obtain ⟨o2, x2⟩ := r2
        have hih := ih s'
        rw [hr] at hih
        constructor
        · simp [runLinesChunk, hpl, hr]
          intro hx
          exact absurd hx hih.1
        · intro hdone
          simp only [runLinesChunk, hpl, hr] at hdone ⊢
          have : x2 = .done := hdone
          subst this
          rw [hih.2 rfl, hstep.2]
          simp [List.length_cons]
          omega
    | brk s' outs =>
      rw [hpl] at hstep
      simp [lineResBrk] at hstep
    | fatal s' outs e =>
      constructor
      · simp [runLinesChunk, hpl]
      · intro hdone
        simp [runLinesChunk, hpl] at hdone

/-- Helper: once an upper record window is exceeded, the flush push guard
is false. -/
theorem winAfter_okToB (o : Option Int) (c : Nat) (h : winAfter o c = true) :
    okToB o (c + 1) = false := by
  cases o with
  | none => simp [winAfter] at h
  | some n =>
    simp only [winAfter, Bool.and_eq_true, bne_iff_ne, ne_eq,
      decide_eq_true_eq] at h
    simp only [okToB, Bool.or_eq_false_iff, beq_eq_false_iff_ne, ne_eq,
      decide_eq_false_iff_not, not_le]
    refine ⟨h.1, ?_⟩
    have h2 := h.2
    push_cast
    omega

/-- Helper: the flush pushes nothing from a dead state. -/
theorem flush_dead (cfg : Config) (host : Host) (ps : PState)
    (hd : deadCtx cfg ps.st.ctx = true) :
    pushes (flush cfg host ps).2.1 = [] := by
  have hd2 : winAfter cfg.to_line ps.st.ctx.lines = true ∨
      winAfter cfg.to_ ps.st.ctx.records = true := by
    simpa [deadCtx, Bool.or_eq_true] using hd
  suffices h : ∀ r, flush cfg host ps = r → pushes r.2.1 = [] by
    exact h _ rfl
  intro r hres
  simp only [flush] at hres
  repeat' split at hres
  all_goals subst hres
  all_goals try exact rfl
  all_goals try (simp [pushes])
  all_goals
    exfalso
  all_goals
    rcases hd2 with h | h
  all_goals
    first
      | exact absurd (winAfter_succ _ _ h) (by assumption)
      | (have hok := winAfter_okToB cfg.to_ ps.st.ctx.records h
         simp_all)

/-- Helper: the flush counts exactly one line when the tail is non-empty,
whatever else it does. -/
theorem flush_lines (cfg : Config) (host : Host) (ps : PState) :
    (flush cfg host ps).1.st.ctx.lines =
      ps.st.ctx.lines + (if ps.buffer.isEmpty then 0 else 1) := by
  suffices h : ∀ r, flush cfg host ps = r →
      r.1.st.ctx.lines =
        ps.st.ctx.lines + (if ps.buffer.isEmpty then 0 else 1) by
    exact h _ rfl
  intro r hres
  simp only [flush] at hres
  repeat' split at hres
  all_goals subst hres
  all_goals simp_all

/-- Helper: `_transform` pushes nothing from a dead state and leaves it
dead. -/
theorem transform_dead (cfg : Config) (host : Host) (s : PState)
    (c : List Char) (hd : deadCtx cfg s.st.ctx = true) :
    pushes (transform cfg host s c).2.1 = [] ∧
    deadCtx cfg (transform cfg host s c).1.st.ctx = true := by
  suffices h : ∀ r, transform cfg host s c = r →
      pushes r.2.1 = [] ∧ deadCtx cfg r.1.st.ctx = true by
    exact h _ rfl
  intro r hres
  simp only [transform] at hres
  by_cases hov : overflowGt cfg (s.buffer ++ c) = true
  · rw [if_pos hov] at hres
    subst hres
    exact ⟨rfl, hd⟩
  · rw [if_neg hov] at hres
    cases hrl : runLinesChunk cfg host s.st (splitLines (s.buffer ++ c)).1 with
    | mk st' r2 =>
      obtain ⟨outs, x⟩ := r2
      have hdd := runLinesChunk_dead cfg host
        (splitLines (s.buffer ++ c)).1 s.st hd
      rw [hrl] at hdd
      rw [hrl] at hres
      cases x <;> subst hres <;> exact ⟨hdd.1, hdd.2⟩

/-- Helper: a whole run pushes nothing from a dead state. -/
theorem runFrom_dead (cfg : Config) (host : Host) :
    ∀ (chunks : List (List Char)) (ps : PState),
      deadCtx cfg ps.st.ctx = true →
      pushes (runFrom cfg host ps chunks).2.1 = [] := by
  intro chunks
  induction chunks with
  | nil =>
    intro ps hd
    cases hfl : flush cfg host ps with
    | mk s' r =>
      obtain ⟨o2, e⟩ := r
      have hfd := flush_dead cfg host ps hd
      rw [hfl] at hfd
      simp [runFrom, feedAll, hfl, hfd]
  | cons c rest ih =>
    intro ps hd
    rw [runFrom_cons]
    have htd := transform_dead cfg host ps c hd
    cases htr : transform cfg host ps c with
    | mk s' r =>
      obtain ⟨outs, e⟩ := r
      rw [htr] at htd
      cases e with
      | some e => simpa using htd.1
      | none =>
        cases hrn : runFrom cfg host s' rest with
        | mk s'' r2 =>
          obtain ⟨o2, e2⟩ := r2
          have hih := ih s' htd.2
          rw [hrn] at hih
          simp [hrn, pushes_append, htd.1, hih]

/-- Helper: with `maxLineLength` unbounded, merging two adjacent chunks
does not change the pushed records of the run. -/
theorem runFrom_merge (cfg : Config) (host : Host)
    (hml : cfg.maxLineLength = none) (s : PState) (a b : List Char)
    (cs : List (List Char)) :
    pushes (runFrom cfg host s (a :: b :: cs)).2.1 =
      pushes (runFrom cfg host s ((a ++ b) :: cs)).2.1 := by
  have hov : ∀ l : List Char, overflowGt cfg l = false := by
    intro l
    simp [overflowGt, hml]
  cases hsp1 : splitLines (s.buffer ++ a) with
  | mk La ta =>
    cases hsp2 : splitLinesAux ta b with
    | mk Lb tb =>
      have hta_nl : '\n' ∉ ta := by
        have h := splitLinesAux_tail_no_nl (s.buffer ++ a) [] (by simp)
        rw [show splitLinesAux [] (s.buffer ++ a) = (La, ta) from hsp1] at h
        exact h
      have hsp3 : splitLines (s.buffer ++ (a ++ b)) = (La ++ Lb, tb) := by
        unfold splitLines
        rw [← List.append_assoc]
        rw [splitLinesAux_append (s.buffer ++ a) b []]
        rw [show splitLinesAux [] (s.buffer ++ a) = (La, ta) from hsp1]
        simp [hsp2]
      have hsp4 : splitLines (ta ++ b) = (Lb, tb) := by
        unfold splitLines
        rw [splitLinesAux_append ta b []]
        rw [splitLinesAux_no_nl ta [] hta_nl]
        simp [hsp2]
      cases hrA : runLinesChunk cfg host s.st La with
      | mk st1 rA =>
        obtain ⟨oA, xA⟩ := rA
        have hrAB := runLinesChunk_append cfg host La Lb s.st
        rw [hrA] at hrAB
        cases xA with
        | fatal e =>
          have htrA : transform cfg host s a = (⟨ta, st1⟩, oA, some e) := by
            simp only [transform, hov, Bool.false_eq_true, if_false, hsp1,
              hrA]
          have htrAB : transform cfg host s (a ++ b) =
              (⟨tb, st1⟩, oA, some e) := by
            simp only [transform, hov, Bool.false_eq_true, if_false, hsp3]
            simp only [hrAB]
          rw [runFrom_cons, runFrom_cons, htrA, htrAB]
        | broke =>
          have hdead : deadCtx cfg st1.ctx = true :=
            runLinesChunk_broke_dead cfg host La s.st st1 oA hrA
          have htrA : transform cfg host s a = (⟨ta, st1⟩, oA, none) := by
            simp only [transform, hov, Bool.false_eq_true, if_false, hsp1,
              hrA]
          have htrAB : transform cfg host s (a ++ b) =
              (⟨tb, st1⟩, oA, none) := by
            simp only [transform, hov, Bool.false_eq_true, if_false, hsp3]
            simp only [hrAB]
          rw [runFrom_cons, runFrom_cons, htrA, htrAB]
          have hd1 : pushes (runFrom cfg host ⟨ta, st1⟩ (b :: cs)).2.1 = [] :=
            runFrom_dead cfg host (b :: cs) ⟨ta, st1⟩ hdead
          have hd2 : pushes (runFrom cfg host ⟨tb, st1⟩ cs).2.1 = [] :=
            runFrom_dead cfg host cs ⟨tb, st1⟩ hdead
          cases hq1 : runFrom cfg host ⟨ta, st1⟩ (b :: cs) with
          | mk q1 rq1 =>
            obtain ⟨oq1, eq1⟩ := rq1
            cases hq2 : runFrom cfg host ⟨tb, st1⟩ cs with
            | mk q2 rq2 =>
              obtain ⟨oq2, eq2⟩ := rq2
              rw [hq1] at hd1
              rw [hq2] at hd2
              simp only at hd1 hd2
              simp [hq1, hq2, pushes_append, hd1, hd2]
        | done =>
          have htrA : transform cfg host s a = (⟨ta, st1⟩, oA, none) := by
            simp only [transform, hov, Bool.false_eq_true, if_false, hsp1,
              hrA]
          cases hrB : runLinesChunk cfg host st1 Lb with
          | mk st2 rB =>
            obtain ⟨oB, xB⟩ := rB
            have hrAB2 : runLinesChunk cfg host s.st (La ++ Lb) =
                (match runLinesChunk cfg host st1 Lb with
                 | (s'', o2, x) => (s'', oA ++ o2, x)) := hrAB
            rw [hrB] at hrAB2
            have hrAB3 : runLinesChunk cfg host s.st (La ++ Lb) =
                (st2, oA ++ oB, xB) := hrAB2
            have hbuf : (⟨ta, st1⟩ : PState).buffer = ta := rfl
            have hst : (⟨ta, st1⟩ : PState).st = st1 := rfl
            have htrB : ∀ (eB : Option Err),
                eB = (match xB with
                      | .fatal e2 => some e2
                      | _ => none) →
                transform cfg host ⟨ta, st1⟩ b = (⟨tb, st2⟩, oB, eB) := by
              intro eB heB
              cases xB <;>
                simp only [heB] <;>
                simp only [transform, hov, Bool.false_eq_true, if_false,
                  hbuf, hst, hsp4, hrB]
            have htrAB : transform cfg host s (a ++ b) =
                (⟨tb, st2⟩, oA ++ oB,
                 (match xB with
                  | .fatal e2 => some e2
                  | _ => none)) := by
              cases xB <;>
                simp only [transform, hov, Bool.false_eq_true, if_false,
                  hsp3] <;>
                simp only [hrAB3]
            have hL : runFrom cfg host s (a :: b :: cs) =
                (match runFrom cfg host ⟨ta, st1⟩ (b :: cs) with
                 | (s'', o2, e) => (s'', oA ++ o2, e)) := by
              rw [runFrom_cons, htrA]
            cases xB with
            | fatal e2 =>
              have hB2 : runFrom cfg host ⟨ta, st1⟩ (b :: cs) =
                  (⟨tb, st2⟩, oB, some e2) := by
                rw [runFrom_cons, htrB (some e2) rfl]
              have hR : runFrom cfg host s ((a ++ b) :: cs) =
                  (⟨tb, st2⟩, oA ++ oB, some e2) := by
                rw [runFrom_cons, htrAB]
              rw [hL, hB2, hR]
            | broke =>
              have hB2 : runFrom cfg host ⟨ta, st1⟩ (b :: cs) =
                  (match runFrom cfg host ⟨tb, st2⟩ cs with
                   | (s'', o2, e) => (s'', oB ++ o2, e)) := by
                rw [runFrom_cons, htrB none rfl]
              have hR : runFrom cfg host s ((a ++ b) :: cs) =
                  (match runFrom cfg host ⟨tb, st2⟩ cs with
                   | (s'', o2, e) => (s'', (oA ++ oB) ++ o2, e)) := by
                rw [runFrom_cons, htrAB]
              rw [hL, hB2, hR]
              cases hq2 : runFrom cfg host ⟨tb, st2⟩ cs with
              | mk q2 rq2 =>
                obtain ⟨oq2, eq2⟩ := rq2
                simp [pushes_append, List.append_assoc]
            | done =>
              have hB2 : runFrom cfg host ⟨ta, st1⟩ (b :: cs) =
                  (match runFrom cfg host ⟨tb, st2⟩ cs with
                   | (s'', o2, e) => (s'', oB ++ o2, e)) := by
                rw [runFrom_cons, htrB none rfl]
              have hR : runFrom cfg host s ((a ++ b) :: cs) =
                  (match runFrom cfg host ⟨tb, st2⟩ cs with
                   | (s'', o2, e) => (s'', (oA ++ oB) ++ o2, e)) := by
                rw [runFrom_cons, htrAB]
              rw [hL, hB2, hR]
              cases hq2 : runFrom cfg host ⟨tb, st2⟩ cs with
              | mk q2 rq2 =>
                obtain ⟨oq2, eq2⟩ := rq2
                simp [pushes_append, List.append_assoc]

/-- Helper: an empty chunk leaves the whole engine state unchanged when the
pending tail holds no newline. -/
theorem transform_nil (cfg : Config) (host : Host)
    (hml : cfg.maxLineLength = none) (s : PState) (hnl : '\n' ∉ s.buffer) :
    transform cfg host s [] = (s, [], none) := by
  have h1 : overflowGt cfg (s.buffer ++ []) = false := by
    simp [overflowGt, hml]
  have h2 : splitLines (s.buffer ++ []) = ([], s.buffer) := by
    unfold splitLines
    rw [List.append_nil]
    exact splitLinesAux_no_nl s.buffer [] hnl
  simp only [transform, h1, Bool.false_eq_true, if_false, h2]
  rfl

/-- Helper: feeding one empty chunk is the same run as feeding nothing. -/
theorem runFrom_nil_chunk (cfg : Config) (host : Host)
    (hml : cfg.maxLineLength = none) (s : PState) (hnl : '\n' ∉ s.buffer) :
    runFrom cfg host s [[]] = runFrom cfg host s [] := by
  rw [runFrom_cons, transform_nil cfg host hml s hnl]
  cases hr : runFrom cfg host s [] with
  | mk q r =>
    obtain ⟨o, e⟩ := r
    simp [hr]

/-- Helper: a run on any chunk list pushes the same records as the run on
the single concatenated chunk (fuel-indexed induction on the list). -/
theorem runFrom_join (cfg : Config) (host : Host)
    (hml : cfg.maxLineLength = none) :
    ∀ (n : Nat) (cs : List (List Char)) (s : PState), cs.length ≤ n →
      '\n' ∉ s.buffer →
      pushes (runFrom cfg host s cs).2.1 =
        pushes (runFrom cfg host s [cs.flatten]).2.1 := by
  intro n
  induction n with
  | zero =>
    intro cs s hlen hnl
    have hcs : cs = [] := List.length_eq_zero.mp (Nat.le_zero.mp hlen)
    subst hcs
    rw [show List.flatten ([] : List (List Char)) = [] from rfl]
    rw [runFrom_nil_chunk cfg host hml s hnl]
  | succ n ih =>
    intro cs s hlen hnl
    cases cs with
    | nil =>
      rw [show List.flatten ([] : List (List Char)) = [] from rfl]
      rw [runFrom_nil_chunk cfg host hml s hnl]
    | cons a cs' =>
      cases cs' with
      | nil =>
        rw [show List.flatten [a] = a by simp]
      | cons b rest =>
        rw [runFrom_merge cfg host hml s a b rest]
        rw [ih ((a ++ b) :: rest) s (by simp at hlen ⊢; omega) hnl]
        rw [show List.flatten ((a ++ b) :: rest) = List.flatten (a :: b :: rest) by
          simp [List.append_assoc]]

/-- C1, amended claim: chunk-invariance holds whenever `maxLineLength` is
unbounded (the default): for every configuration with no line-length bound,
every host, every input and every way of splitting it into chunks, feeding
the chunks to `_transform` in order and then calling `_flush` pushes
exactly the same record sequence as feeding the whole input as one chunk.
The amendment restricts the claim to unbounded `maxLineLength`: with a
finite bound the pre-split overflow guard can fire on a large single chunk
but not on the same bytes split small (see the counterexample). -/
theorem C1_chunk_invariance_unbounded (cfg : Config) (host : Host)
    (chunks : List (List Char)) (hml : cfg.maxLineLength = none) :
    recsOf (run cfg host chunks) = recsOf (run cfg host [chunks.flatten]) :=
  runFrom_join cfg host hml chunks.length chunks initState le_rfl
    (by simp [initState])

/-- Witness for C1: the amended theorem applied to the default
configuration and a concrete two-chunk input. -/
theorem C1_chunk_invariance_unbounded_witness :
    recsOf (run defaultConfig hostW [strL "1\n", strL "2"]) =
      recsOf (run defaultConfig hostW [List.flatten [strL "1\n", strL "2"]]) :=
  C1_chunk_invariance_unbounded defaultConfig hostW
    [strL "1\n", strL "2"] rfl

/-- Counterexample for C1 as stated: with the finite `maxLineLength: 1`,
the twelve-character input fed as one chunk trips the overflow guard and
yields no records, while the same input in two six-character chunks yields
six records. -/
theorem C1_counterexample :
    recsOf (run cfgML1 hostW [strL "1\n1\n1\n", strL "1\n1\n1\n"]) =
      [.num 1, .num 1, .num 1, .num 1, .num 1, .num 1] ∧
    recsOf (run cfgML1 hostW [List.flatten [strL "1\n1\n1\n", strL "1\n1\n1\n"]]) =
      [] ∧
    recsOf (run cfgML1 hostW [strL "1\n1\n1\n", strL "1\n1\n1\n"]) ≠
      recsOf (run cfgML1 hostW
        [List.flatten [strL "1\n1\n1\n", strL "1\n1\n1\n"]]) := by
  refine ⟨rfl, rfl, ?_⟩
  intro h
  have h1 : recsOf (run cfgML1 hostW [strL "1\n1\n1\n", strL "1\n1\n1\n"]) =
      [.num 1, .num 1, .num 1, .num 1, .num 1, .num 1] := rfl
  have h2 : recsOf (run cfgML1 hostW
      [List.flatten [strL "1\n1\n1\n", strL "1\n1\n1\n"]]) = [] := rfl
  rw [h1, h2] at h
  exact List.noConfusion h

/-- Helper: unfolding `feedAll` on a cons cell. -/
theorem feedAll_cons (cfg : Config) (host : Host) (s : PState)
    (c : List Char) (cs : List (List Char)) :
    feedAll cfg host s (c :: cs) =
      (match transform cfg host s c with
       | (s', outs, some e) => (s', outs, some e)
       | (s', outs, none) =>
         match feedAll cfg host s' cs with
         | (s'', outs2, e) => (s'', outs ++ outs2, e)) := rfl

/-- Helper: with both upper windows unset and no fatal error, one
`_transform` call counts exactly one line per newline of the chunk and
keeps the pending tail equal to the split tail. -/
theorem transform_count (cfg : Config) (host : Host)
    (hl : cfg.to_line = none) (ht : cfg.to_ = none) (s : PState)
    (c : List Char) (hnl : '\n' ∉ s.buffer) :
    ∀ r, transform cfg host s c = r → r.2.2 = none →
      r.1.st.ctx.lines = s.st.ctx.lines + nlCount c ∧
      r.1.buffer = (splitLines (s.buffer ++ c)).2 ∧
      '\n' ∉ r.1.buffer := by
  intro r hres herr
  simp only [transform] at hres
  by_cases hov : overflowGt cfg (s.buffer ++ c) = true
  · rw [if_pos hov] at hres
    subst hres
    simp at herr
  · rw [if_neg hov] at hres
    cases hrl : runLinesChunk cfg host s.st (splitLines (s.buffer ++ c)).1 with
    | mk st' rr =>
      obtain ⟨outs, x⟩ := rr
      rw [hrl] at hres
      have hlines := runLinesChunk_lines cfg host hl ht
        (splitLines (s.buffer ++ c)).1 s.st
      rw [hrl] at hlines
      simp only at hlines
      have htail : '\n' ∉ (splitLines (s.buffer ++ c)).2 := by
        unfold splitLines
        exact splitLinesAux_tail_no_nl (s.buffer ++ c) [] (by simp)
      have hcount : (splitLines (s.buffer ++ c)).1.length = nlCount c := by
        unfold splitLines
        rw [splitLinesAux_count]
        unfold nlCount
        rw [List.count_append]
        rw [show List.count '\n' s.buffer = 0 from nlCount_no_nl s.buffer hnl]
        simp
      cases x with
      | fatal e =>
        subst hres
        simp at herr
      | broke => exact absurd rfl hlines.1
      | done =>
        subst hres
        refine ⟨?_, rfl, htail⟩
        have := hlines.2 rfl
        simp only at this
        rw [this, hcount]

/-- Helper: with both upper windows unset and no fatal error, feeding
chunks counts one line per newline and tracks the unterminated tail. -/
theorem feedAll_count (cfg : Config) (host : Host)
    (hl : cfg.to_line = none) (ht : cfg.to_ = none) :
    ∀ (chunks : List (List Char)) (s : PState), '\n' ∉ s.buffer →
      (feedAll cfg host s chunks).2.2 = none →
      (feedAll cfg host s chunks).1.st.ctx.lines =
        s.st.ctx.lines + nlCount chunks.flatten ∧
      (feedAll cfg host s chunks).1.buffer =
        (splitLines (s.buffer ++ chunks.flatten)).2 ∧
      '\n' ∉ (feedAll cfg host s chunks).1.buffer := by
  intro chunks
  induction chunks with
  | nil =>
    intro s hnl _
    refine ⟨by simp [feedAll, nlCount], ?_, by simpa [feedAll] using hnl⟩
    simp only [feedAll]
    rw [show List.flatten ([] : List (List Char)) = [] from rfl,
      List.append_nil]
    unfold splitLines
    rw [splitLinesAux_no_nl s.buffer [] hnl]
    simp
  | cons c rest ih =>
    intro s hnl herr
    cases htr : transform cfg host s c with
    | mk s' r =>
      obtain ⟨outs, e⟩ := r
      cases e with
      | some e =>
        exfalso
        have hfa : feedAll cfg host s (c :: rest) = (s', outs, some e) := by
          rw [feedAll_cons, htr]
        rw [hfa] at herr
        simp at herr
      | none =>
        cases hfd : feedAll cfg host s' rest with
        | mk s'' r2 =>
          obtain ⟨o2, e2⟩ := r2
          have hfa : feedAll cfg host s (c :: rest) =
              (match feedAll cfg host s' rest with
               | (a, b2, e) => (a, outs ++ b2, e)) := by
            rw [feedAll_cons, htr]
          rw [hfd] at hfa
          have hfa2 : feedAll cfg host s (c :: rest) =
              (s'', outs ++ o2, e2) := hfa
          rw [hfa2] at herr
          simp only at herr
          subst herr
          have hc := transform_count cfg host hl ht s c hnl _ htr rfl
          simp only at hc
          have hih := ih s' hc.2.2 (by rw [hfd])
          rw [hfd] at hih
          simp only at hih
          rw [hfa2]
          refine ⟨?_, ?_, hih.2.2⟩
          · simp only
            rw [hih.1, hc.1]
            rw [show (c :: rest).flatten = c ++ rest.flatten from rfl]
            unfold nlCount
            rw [List.count_append]
            omega
          · simp only
            rw [hih.2.1, hc.2.1]
            rw [show (c :: rest).flatten = c ++ rest.flatten from rfl]
            unfold splitLines
            rw [← List.append_assoc]
            rw [splitLinesAux_append (s.buffer ++ c) rest.flatten []]
            rw [splitLinesAux_append
              ((splitLinesAux [] (s.buffer ++ c)).2) rest.flatten []]
            rw [splitLinesAux_no_nl ((splitLinesAux [] (s.buffer ++ c)).2)
              [] (splitLinesAux_tail_no_nl (s.buffer ++ c) [] (by simp))]
            simp

/-- C8, amended claim: provided neither upper window (`to_line`, `to`) is
configured and the run raises no fatal error, the final `lineCounter`
equals the number of line terminators in the full input plus one exactly
when the input has non-empty content after the final terminator, for every
chunking.  The amendment adds the two provisos: a truthy `to_line` or `to`
breaks out of the chunk loop, after which line counting becomes
chunk-dependent (see the counterexample), and a fatal error stops counting
early. -/
theorem C8_line_counter (cfg : Config) (host : Host)
    (chunks : List (List Char)) (hl : cfg.to_line = none)
    (ht : cfg.to_ = none) (herr : errOf (run cfg host chunks) = none) :
    (run cfg host chunks).1.st.ctx.lines =
      nlCount chunks.flatten +
        (if (splitLines chunks.flatten).2.isEmpty then 0 else 1) := by
  cases hfd : feedAll cfg host initState chunks with
  | mk s1 r1 =>
    obtain ⟨o1, e1⟩ := r1
    cases e1 with
    | some e =>
      exfalso
      unfold errOf run runFrom at herr
      rw [hfd] at herr
      simp at herr
    | none =>
      have hc := feedAll_count cfg host hl ht chunks initState
        (by simp [initState]) (by rw [hfd])
      rw [hfd] at hc
      simp only at hc
      have hrun : (run cfg host chunks).1 = (flush cfg host s1).1 := by
        unfold run runFrom
        rw [hfd]
      rw [hrun, flush_lines, hc.1, hc.2.1]
      have hinit : initState.st.ctx.lines = 0 := rfl
      have hbuf : initState.buffer = ([] : List Char) := rfl
      rw [hinit, hbuf]
      simp

/-- Witness for C8: the amended theorem applied to the default
configuration on a two-chunk input with one terminator and a non-empty
final fragment. -/
theorem C8_line_counter_witness :
    (run defaultConfig hostW [strL "1\n", strL "2"]).1.st.ctx.lines =
      nlCount (List.flatten [strL "1\n", strL "2"]) +
        (if (splitLines (List.flatten [strL "1\n", strL "2"])).2.isEmpty
         then 0 else 1) :=
  C8_line_counter defaultConfig hostW [strL "1\n", strL "2"] rfl rfl rfl

/-- Counterexample for C8 as stated: with `to_line: 1`, the input with
three terminators and no final fragment ends the run with `lineCounter`
equal to two when fed as one chunk (and three when fed line by line), not
the claimed three. -/
theorem C8_counterexample :
    (run cfgTL1 hostW [strL "1\n1\n1\n"]).1.st.ctx.lines = 2 ∧
    (run cfgTL1 hostW [strL "1\n", strL "1\n", strL "1\n"]).1.st.ctx.lines =
      3 ∧
    nlCount (strL "1\n1\n1\n") +
      (if (splitLines (strL "1\n1\n1\n")).2.isEmpty then 0 else 1) = 3 ∧
    (2 : Nat) ≠ 3 :=
  ⟨rfl, rfl, rfl, by decide⟩

/-- C3, amended claim: after a record survives shaping the record counter
is incremented exactly once, and the record window then applies — with
`from` set and the counter below it the record is discarded while counting
continues, with `to` set and the counter above it the line loop breaks,
and otherwise the record is emitted; from any state whose record counter
is already past a truthy `to`, no record is ever emitted for the remainder
of the run; and the claim's concrete example holds: with `from: 2, to: 3`
the five-record input yields exactly the records with ids 2 and 3.  The
amendment drops the claim's clause that the engine stops consuming
entirely once past `to`: the `break` only ends the current chunk's line
loop, and later chunks are still consumed — their lines are still counted
and decoded, so a malformed line arriving after the stop still raises (see
the counterexample). -/
theorem C3_record_window (cfg : Config) (host : Host) :
    (∀ (ps : PState) (chunks : List (List Char)),
      winAfter cfg.to_ ps.st.ctx.records = true →
      recsOf (runFrom cfg host ps chunks) = []) ∧
    (∀ (s : LState) (l : List Char),
      (lineResState (processLine cfg host s l)).ctx.records =
          s.ctx.records ∨
      ((lineResState (processLine cfg host s l)).ctx.records =
          s.ctx.records + 1 ∧
       (if winBefore cfg.from_ (s.ctx.records + 1) then
          processLine cfg host s l =
            .cont (lineResState (processLine cfg host s l)) []
        else if winAfter cfg.to_ (s.ctx.records + 1) then
          processLine cfg host s l =
            .brk (lineResState (processLine cfg host s l)) []
        else ∃ v, processLine cfg host s l =
            .cont (lineResState (processLine cfg host s l)) [.push v]))) ∧
    recsOf (run cfg23 hostW
        [strL
          "\x7b\"id\":1\x7d\n\x7b\"id\":2\x7d\n\x7b\"id\":3\x7d\n\x7b\"id\":4\x7d\n\x7b\"id\":5\x7d\n"]) =
      [.obj [("id", .num 2)], .obj [("id", .num 3)]] := by
  refine ⟨?_, ?_, rfl⟩
  · intro ps chunks hw
    exact runFrom_dead cfg host chunks ps (by simp [deadCtx, hw])
  · intro s l
    suffices h : ∀ r, processLine cfg host s l = r →
        ((lineResState r).ctx.records = s.ctx.records ∨
         ((lineResState r).ctx.records = s.ctx.records + 1 ∧
          (if winBefore cfg.from_ (s.ctx.records + 1) then
             r = .cont (lineResState r) []
           else if winAfter cfg.to_ (s.ctx.records + 1) then
             r = .brk (lineResState r) []
           else ∃ v, r = .cont (lineResState r) [.push v]))) by
      exact h _ rfl
    intro r hres
    simp only [processLine] at hres
    repeat' split at hres
    all_goals subst hres
    all_goals first
      | exact Or.inl rfl
      | (refine Or.inr ⟨rfl, ?_⟩
         simp_all [lineResState])

/-- Witness for C3: the dead-window conjunct applied to the `to: 1`
configuration from a state whose record counter is already two — the
remaining chunk emits nothing. -/
theorem C3_record_window_witness :
    recsOf (runFrom cfgTo1 hostW
        ⟨[], ⟨⟨0, 2, 0⟩, none, false⟩⟩ [strL "\x7b\"a\":1\x7d\n"]) = [] :=
  (C3_record_window cfgTo1 hostW).1 ⟨[], ⟨⟨0, 2, 0⟩, none, false⟩⟩
    [strL "\x7b\"a\":1\x7d\n"] rfl

/-- Counterexample for C3 as stated: with `to: 1`, after the stop the
engine does not stop consuming for the remainder of the run — a later
chunk's malformed line is still consumed, still counted, and still raises
the strict-mode decode error. -/
theorem C3_counterexample :
    recsOf (run cfgTo1 hostW
        [strL "\x7b\"a\":1\x7d\n\x7b\"b\":2\x7d\n", strL "x\n"]) =
      [.obj [("a", .num 1)]] ∧
    errOf (run cfgTo1 hostW
        [strL "\x7b\"a\":1\x7d\n\x7b\"b\":2\x7d\n", strL "x\n"]) =
      some (.badJSON 3 (strL "x")) :=
  ⟨rfl, rfl⟩

end JSONL
